import Mathlib

/-!
Verification of the movie/ratings backend (repository layer in
`internal/repository`, HTTP handlers in `internal/http/movies.go`,
schema in the Makefile's DDL).

Shallow embedding conventions:
* timestamps are `Nat` (abstract instants, strictly increasing wall clock);
* SQL `NUMERIC(2,1)` rating values and aggregate averages are `ℚ`
  (PostgreSQL `numeric` arithmetic is exact decimal arithmetic);
* nullable SQL columns and Go pointer fields are `Option`;
* the movies and ratings tables are `List Movie` / `List Rating`.
-/

/-! ### PostgreSQL `LIKE` / `ILIKE` pattern matching

`MoviesRepository.List` filters rows with `ILIKE`.  `likeMatch pat txt`
models PostgreSQL `txt LIKE pat`: `%` matches any substring, `_` any single
character, backslash escapes the following character, all other characters
match themselves.  `ILIKE` lowercases both sides (`ilike`).  The function
is fuel-indexed (fuel `|pat| + |txt| + 1` always suffices) so that it is
structurally recursive and evaluates on concrete inputs. -/

/-- One step of PostgreSQL `LIKE` matching, with explicit fuel. -/
def likeMatchF : Nat → List Char → List Char → Bool
  | 0, _, _ => false
  | _ + 1, [], t => t.isEmpty
  | f + 1, c :: p, t =>
    if c = '%' then
      likeMatchF f p t ||
        (match t with
         | [] => false
         | _ :: t2 => likeMatchF f (c :: p) t2)
    else if c = '\\' then
      match p with
      | [] => false
      | pc :: p2 =>
        match t with
        | [] => false
        | d :: t2 => pc == d && likeMatchF f p2 t2
    else
      match t with
      | [] => false
      | d :: t2 => (c == '_' || c == d) && likeMatchF f p t2

/-- PostgreSQL `txt LIKE pat` (pattern first argument). -/
def likeMatch (p t : List Char) : Bool :=
  likeMatchF (p.length + t.length + 1) p t

/-- A pattern character with no special `LIKE` meaning. -/
def plainChar (c : Char) : Bool := !(c == '%' || c == '_' || c == '\\')

/-- A `LIKE` pattern containing no wildcard and no escape character. -/
def plainPat (p : List Char) : Bool := p.all plainChar

/-- `isSubCh p t`: `p` occurs as a contiguous substring of `t`. -/
def isSubCh (p : List Char) : List Char → Bool
  | [] => p.isPrefixOf []
  | d :: t2 => p.isPrefixOf (d :: t2) || isSubCh p t2

/-- `lower()` as applied by `ILIKE` (ASCII case folding, matching both the
SQL collation on this schema and Go test expectations). -/
def lowerStr (s : String) : List Char := s.data.map Char.toLower

/-- PostgreSQL `txt ILIKE pat`: case-insensitive `LIKE`. -/
def ilike (t p : String) : Bool := likeMatch (lowerStr p) (lowerStr t)

/-- `domain.Revenue`: nested revenue payload of a box-office sub-document. -/
structure Revenue where
  worldwide : Int
  openingWeekendUS : Option Int
deriving DecidableEq

/-- `domain.BoxOffice`: the box-office sub-document stored as JSONB. -/
structure BoxOffice where
  revenue : Revenue
  currency : String
  source : String
  lastUpdated : Nat
deriving DecidableEq

/-- `domain.Movie`: canonical movie entity.  `releaseDate` is (year, month,
day); `releaseYear` mirrors the generated column (always the year component,
maintained by `create`). -/
structure Movie where
  id : String
  title : String
  releaseDate : Nat × Nat × Nat
  releaseYear : Nat
  genre : String
  distributor : Option String
  budget : Option Int
  mpaRating : Option String
  boxOffice : Option BoxOffice
  createdAt : Nat
  updatedAt : Nat
deriving DecidableEq

/-- `domain.Rating`: one rater's rating row for one movie. -/
structure Rating where
  movieId : String
  raterId : String
  value : ℚ
  createdAt : Nat
  updatedAt : Nat
deriving DecidableEq

/-- `domain.RatingAggregate`: derived (average, count) summary. -/
structure RatingAggregate where
  average : ℚ
  count : Nat
deriving DecidableEq

/-! ### Cursor codec

`encodeCursor` is `base64.StdEncoding.EncodeToString(json.Marshal(cursor))`
and `DecodeCursor` is the reverse (`repository` package).  The base64 layer
is RFC 4648 standard encoding with mandatory padding, as implemented by
Go's `encoding/base64` `StdEncoding` (whose decoder also skips `\r`/`\n`).
The JSON layer is modelled for the concrete two-field `MovieCursor`
payload: the `createdAt` timestamp is serialised as a quoted decimal string
(an injective textual encoding standing in for RFC 3339), the `id` as a
JSON string with `"` and `\` escaped; the parser accepts the fields in any
order, tolerates missing fields by leaving the zero value in place (as
`json.Unmarshal` does), and rejects malformed input. -/

/-- `repository.MovieCursor`. -/
structure MovieCursor where
  createdAt : Nat
  id : String
deriving DecidableEq

/-- The RFC 4648 standard base64 alphabet. -/
def b64Alphabet : List Char :=
  [ 'A', 'B', 'C', 'D', 'E', 'F', 'G', 'H', 'I', 'J', 'K', 'L', 'M',
    'N', 'O', 'P', 'Q', 'R', 'S', 'T', 'U', 'V', 'W', 'X', 'Y', 'Z',
    'a', 'b', 'c', 'd', 'e', 'f', 'g', 'h', 'i', 'j', 'k', 'l', 'm',
    'n', 'o', 'p', 'q', 'r', 's', 't', 'u', 'v', 'w', 'x', 'y', 'z',
    '0', '1', '2', '3', '4', '5', '6', '7', '8', '9', '+', '/' ]

/-- Base64 digit for a 6-bit value. -/
def b64Char (n : Nat) : Char := b64Alphabet.getD n 'A'

/-- 6-bit value of a base64 digit; `none` for non-alphabet characters. -/
def b64Dec (c : Char) : Option Nat :=
  if 'A' ≤ c && c ≤ 'Z' then some (c.toNat - 65)
  else if 'a' ≤ c && c ≤ 'z' then some (c.toNat - 71)
  else if '0' ≤ c && c ≤ '9' then some (c.toNat + 4)
  else if c = '+' then some 62
  else if c = '/' then some 63
  else none

/-- Base64-encode a byte list (bytes as `Nat < 256`), with padding. -/
def b64EncodeBytes : List Nat → List Char
  | [] => []
  | [b1] => [b64Char (b1 / 4), b64Char (b1 % 4 * 16), '=', '=']
  | [b1, b2] =>
    [b64Char (b1 / 4), b64Char (b1 % 4 * 16 + b2 / 16),
     b64Char (b2 % 16 * 4), '=']
  | b1 :: b2 :: b3 :: rest =>
    b64Char (b1 / 4) :: b64Char (b1 % 4 * 16 + b2 / 16) ::
    b64Char (b2 % 16 * 4 + b3 / 64) :: b64Char (b3 % 64) ::
    b64EncodeBytes rest

/-- Base64-decode four characters at a time, with strict padding and
trailing-garbage checks (Go returns `CorruptInputError` in those cases). -/
def b64DecodeQuads : List Char → Option (List Nat)
  | [] => some []
  | c1 :: c2 :: c3 :: c4 :: rest =>
    (b64Dec c1).bind fun s1 =>
    (b64Dec c2).bind fun s2 =>
    if c3 = '=' then
      if c4 = '=' then
        if rest.isEmpty then some [s1 * 4 + s2 / 16] else none
      else none
    else
      (b64Dec c3).bind fun s3 =>
      if c4 = '=' then
        if rest.isEmpty then
          some [s1 * 4 + s2 / 16, s2 % 16 * 16 + s3 / 4]
        else none
      else
        (b64Dec c4).bind fun s4 =>
        (b64DecodeQuads rest).map fun bs =>
          (s1 * 4 + s2 / 16) :: (s2 % 16 * 16 + s3 / 4) ::
            (s3 % 4 * 64 + s4) :: bs
  | _ => none

/-- Go's base64 decoder skips CR and LF before decoding. -/
def b64Decode (s : List Char) : Option (List Nat) :=
  b64DecodeQuads (s.filter fun c => !(c == '\r' || c == '\n'))

/-- Decimal digit character (`0`-`9`). -/
def digitChar (n : Nat) : Char := "0123456789".data.getD n '0'

def natToCharsF : Nat → Nat → List Char
  | 0, _ => []
  | f + 1, n =>
    if n < 10 then [digitChar n]
    else natToCharsF f (n / 10) ++ [digitChar (n % 10)]

/-- Decimal representation of a natural number. -/
def natToChars (n : Nat) : List Char := natToCharsF (n + 1) n

def isDigitCh (c : Char) : Bool := '0' ≤ c && c ≤ '9'

/-- Value of a decimal digit string. -/
def digitsToNat (ds : List Char) : Nat :=
  ds.foldl (fun acc c => acc * 10 + (c.toNat - 48)) 0

/-- JSON string escaping as produced by `json.Marshal` for quote and
backslash (control and HTML characters, which `json.Marshal` also escapes,
do not occur in cursor payloads). -/
def escapeJson : List Char → List Char
  | [] => []
  | c :: s =>
    if c = '"' ∨ c = '\\' then '\\' :: c :: escapeJson s
    else c :: escapeJson s

/-- Parse a JSON string body up to the closing quote, with fuel; an escaped
character is taken literally.  Returns the content and the remaining
input. -/
def parseStrF : Nat → List Char → Option (List Char × List Char)
  | 0, _ => none
  | _ + 1, [] => none
  | f + 1, c :: s =>
    if c = '"' then some ([], s)
    else if c = '\\' then
      match s with
      | [] => none
      | e :: s2 => (parseStrF f s2).map fun p => (e :: p.1, p.2)
    else (parseStrF f s).map fun p => (c :: p.1, p.2)

/-- Parse a JSON string body up to the closing quote (fuel instantiated:
one unit of fuel consumes at least one input character). -/
def parseStr (s : List Char) : Option (List Char × List Char) :=
  parseStrF (s.length + 1) s

/-- `json.Marshal` of a `MovieCursor`: field order follows the struct
declaration, keys from the struct tags. -/
def marshalCursor (c : MovieCursor) : List Char :=
  ['\x7b', '"'] ++ "createdAt".data ++ ['"', ':', '"'] ++
    natToChars c.createdAt ++ ['"', ',', '"'] ++ "id".data ++
    ['"', ':', '"'] ++ escapeJson c.id.data ++ ['"', '\x7d']

/-- Parse the fields of a cursor JSON object (after the opening brace, when
the object is non-empty).  Later duplicate fields overwrite earlier ones,
as in `json.Unmarshal`. -/
def parseCursorFieldsF : Nat → List Char → MovieCursor → Option MovieCursor
  | 0, _, _ => none
  | f + 1, s, acc =>
    match s with
    | [] => none
    | q :: s1 =>
      if q = '"' then
        (parseStr s1).bind fun np =>
        match np.2 with
        | [] => none
        | colon :: s2 =>
          if colon = ':' then
            match s2 with
            | [] => none
            | vq :: s3 =>
              if vq = '"' then
                (parseStr s3).bind fun vp =>
                (if np.1 = "createdAt".data then
                   if vp.1 ≠ [] && vp.1.all isDigitCh then
                     some { acc with createdAt := digitsToNat vp.1 }
                   else none
                 else if np.1 = "id".data then
                   some { acc with id := String.mk vp.1 }
                 else none).bind fun acc2 =>
                match vp.2 with
                | [] => none
                | sep :: s4 =>
                  if sep = ',' then parseCursorFieldsF f s4 acc2
                  else if sep = '\x7d' then
                    if s4.isEmpty then some acc2 else none
                  else none
              else none
          else none
      else none

/-- `json.Unmarshal` into a `MovieCursor`: accepts an object whose fields
are a subset of `createdAt`/`id` in any order; absent fields keep the Go
zero value. -/
def unmarshalCursor (s : List Char) : Option MovieCursor :=
  match s with
  | [] => none
  | b :: s1 =>
    if b = '\x7b' then
      match s1 with
      | [] => none
      | c :: s2 =>
        if c = '\x7d' then
          if s2.isEmpty then some { createdAt := 0, id := "" } else none
        else parseCursorFieldsF (s1.length + 1) s1 { createdAt := 0, id := "" }
    else none

/-- Error outcomes of `DecodeCursor` (`"invalid cursor"` wraps a base64
error, `"invalid cursor payload"` wraps a JSON error). -/
inductive CursorError where
  | invalidCursor
  | invalidPayload
deriving DecidableEq

/-- `repository.encodeCursor`: JSON-marshal then base64. -/
def encodeCursor (c : MovieCursor) : String :=
  String.mk (b64EncodeBytes ((marshalCursor c).map Char.toNat))

/-- `repository.DecodeCursor`: empty token means no cursor (no error);
a base64 failure is `invalid cursor`; a JSON failure is
`invalid cursor payload`. -/
def DecodeCursor (token : String) : Except CursorError (Option MovieCursor) :=
  if token = "" then .ok none
  else
    match b64Decode token.data with
    | none => .error .invalidCursor
    | some bytes =>
      match unmarshalCursor (bytes.map Char.ofNat) with
      | none => .error .invalidPayload
      | some cursor => .ok (some cursor)

/-! ### Movie listing engine -/

/-- `strings.TrimSpace`: strip leading and trailing whitespace. -/
def isSpaceChar (c : Char) : Bool :=
  c == ' ' || c == '\t' || c == '\n' || c == '\r'

def trimSpace (s : String) : String :=
  ⟨((s.data.dropWhile isSpaceChar).reverse.dropWhile isSpaceChar).reverse⟩

/-- `repository.MovieListFilters`. -/
structure MovieListFilters where
  query : Option String := none
  year : Option Nat := none
  genre : Option String := none
  distributor : Option String := none
  budgetLTE : Option Int := none
  mpaRating : Option String := none
  limit : Int := 0
  cursor : Option MovieCursor := none
deriving DecidableEq

/-- `repository.MovieListResult` (`NextCursor` is the encoded token). -/
structure MovieListResult where
  items : List Movie
  nextCursor : Option String
deriving DecidableEq

/-- The composite pagination sort key `(created_at, id)`. -/
def movieKey (m : Movie) : Nat × String := (m.createdAt, m.id)

/-- SQL row comparison `(created_at, id) < (c, i)`: lexicographic. -/
def keyLt (a b : Nat × String) : Prop :=
  a.1 < b.1 ∨ (a.1 = b.1 ∧ a.2 < b.2)

instance (a b : Nat × String) : Decidable (keyLt a b) := by
  unfold keyLt; infer_instance

/-- `ORDER BY created_at DESC, id DESC`: `m1` sorts no later than `m2`. -/
def movieGe (m1 m2 : Movie) : Prop :=
  keyLt (movieKey m2) (movieKey m1) ∨ movieKey m2 = movieKey m1

instance : DecidableRel movieGe := fun m1 m2 => by
  unfold movieGe; infer_instance

/-- Strictly-descending comparison on the composite key. -/
def movieGt (m1 m2 : Movie) : Prop := keyLt (movieKey m2) (movieKey m1)

instance : DecidableRel movieGt := fun m1 m2 => by
  unfold movieGt; infer_instance

/-- The `WHERE` clause of `MoviesRepository.List` other than the cursor:
query `ILIKE '%q%'` over title/distributor, exact year, `ILIKE` for
genre/distributor/MPA (patterns passed without wildcards), inclusive
budget bound.  A SQL NULL column never satisfies an `ILIKE`/`<=` test. -/
def matchesFilters (f : MovieListFilters) (m : Movie) : Bool :=
  (match f.query with
   | none => true
   | some q =>
     if trimSpace q = "" then true
     else
       let pat := "%" ++ trimSpace q ++ "%"
       ilike m.title pat ||
         (match m.distributor with
          | some d => ilike d pat
          | none => false)) &&
  (match f.year with
   | none => true
   | some y => m.releaseYear == y) &&
  (match f.genre with
   | none => true
   | some g =>
     if trimSpace g = "" then true else ilike m.genre (trimSpace g)) &&
  (match f.distributor with
   | none => true
   | some dv =>
     if trimSpace dv = "" then true
     else
       match m.distributor with
       | some d => ilike d (trimSpace dv)
       | none => false) &&
  (match f.budgetLTE with
   | none => true
   | some b =>
     match m.budget with
     | some mb => mb ≤ b
     | none => false) &&
  (match f.mpaRating with
   | none => true
   | some r =>
     if trimSpace r = "" then true
     else
       match m.mpaRating with
       | some mr => ilike mr (trimSpace r)
       | none => false)

/-- The cursor clause `(created_at, id) < ($cursorCreated, $cursorID)`. -/
def belowCursor (oc : Option MovieCursor) (m : Movie) : Bool :=
  match oc with
  | none => true
  | some cur => decide (keyLt (movieKey m) (cur.createdAt, cur.id))

/-- The `LIMIT` clamping at the top of `MoviesRepository.List`. -/
def effLimit (limit : Int) : Nat :=
  if limit ≤ 0 then 20
  else if limit > 100 then 100
  else limit.toNat

/-- `MoviesRepository.List`: filter, order by `(created_at DESC, id DESC)`,
truncate at the (clamped) limit, and emit a next-cursor token exactly when
the page is full, carrying the key of the page's last item. -/
def listMovies (store : List Movie) (filters : MovieListFilters) :
    MovieListResult :=
  let lim := effLimit filters.limit
  let rows := store.filter fun m =>
    matchesFilters filters m && belowCursor filters.cursor m
  let items := (List.insertionSort movieGe rows).take lim
  let nextCursor :=
    if items.length = lim then
      items.getLast?.map fun last =>
        encodeCursor { createdAt := last.createdAt, id := last.id }
    else none
  { items := items, nextCursor := nextCursor }

/-- A client's pagination loop: fetch a page, decode the returned
next-cursor token exactly as `buildMovieFilters` does, and continue until
no cursor is returned (bounded by fuel). -/
def paginate (store : List Movie) (filters : MovieListFilters) :
    Option MovieCursor → Nat → List Movie
  | _, 0 => []
  | cur, fuel + 1 =>
    let res := listMovies store { filters with cursor := cur }
    match res.nextCursor with
    | none => res.items
    | some tok =>
      match DecodeCursor tok with
      | .ok (some nextCur) =>
        res.items ++ paginate store filters (some nextCur) fuel
      | _ => res.items

/-- Repository-level error (`repository.ErrNotFound` vs. any other error). -/
inductive RepoError where
  | notFound
  | internal
deriving DecidableEq

/-- `repository.RatingUpsertParams`. -/
structure RatingUpsertParams where
  movieID : String
  raterID : String
  value : ℚ
deriving DecidableEq

/-- The ratings primary key `(movie_id, rater_id)` comparison. -/
def ratingKeyMatches (mid rid : String) (r : Rating) : Bool :=
  r.movieId == mid && r.raterId == rid

/-- `RatingsRepository.Upsert`: `INSERT ... ON CONFLICT (movie_id, rater_id)
DO UPDATE SET rating = EXCLUDED.rating, updated_at = now()`, returning the
row and `(xmax = 0) AS inserted`.  The `ratings.movie_id` foreign key to
`movies(id)` makes the insert fail when the movie does not exist. -/
def upsert (movies : List Movie) (ratings : List Rating)
    (p : RatingUpsertParams) (now : Nat) :
    Except RepoError (List Rating × Rating × Bool) :=
  if movies.any (fun m => m.id == p.movieID) then
    match ratings.find? (ratingKeyMatches p.movieID p.raterID) with
    | some old =>
        let upd : Rating := { old with value := p.value, updatedAt := now }
        .ok (ratings.map
              (fun r => if ratingKeyMatches p.movieID p.raterID r then upd else r),
             upd, false)
    | none =>
        let fresh : Rating :=
          { movieId := p.movieID, raterId := p.raterID, value := p.value,
            createdAt := now, updatedAt := now }
        .ok (ratings ++ [fresh], fresh, true)
  else
    .error .internal

/-- PostgreSQL `ROUND(x::numeric, 1)`: round to one decimal, half away from
zero; all rating values are positive, so this is round-half-up at the
tenths place.  Uses the executable `Rat.floor`. -/
def roundHalfUp1 (q : ℚ) : ℚ := ((q * 10 + 1 / 2).floor : ℚ) / 10

/-- `RatingsRepository.Aggregate`:
`SELECT COALESCE(ROUND(AVG(rating)::numeric, 1), 0), COUNT(*) FROM ratings
WHERE movie_id = $1`.  `rating` is `NUMERIC(2,1)`, so the average is exact
decimal arithmetic. -/
def aggregate (ratings : List Rating) (movieID : String) : RatingAggregate :=
  let vs := (ratings.filter (fun r => r.movieId == movieID)).map Rating.value
  if vs.length = 0 then
    { average := 0, count := 0 }
  else
    { average := roundHalfUp1 (vs.sum / vs.length), count := vs.length }

/-- `RatingsRepository.Get`: select by `(movie_id, rater_id)`,
`ErrNotFound` when no row matches. -/
def getRating (ratings : List Rating) (movieID raterID : String) :
    Except RepoError Rating :=
  match ratings.find? (ratingKeyMatches movieID raterID) with
  | some r => .ok r
  | none => .error .notFound

/-! ### HTTP handlers (`internal/http/movies.go`)

Request decoding, validation and the enrichment coordinator, modelled as
pure functions over the decoded request, the store state, and the outcome
of the outbound box-office fetch.  The database-supplied id and `now()`
instants are parameters. -/

/-- `allowedRatings` (the ten-step set used by `handleSubmitRating`; all
ten values are exactly representable, so the float32 set membership test is
exact). -/
def allowedRatings : List ℚ :=
  [1/2, 1, 3/2, 2, 5/2, 3, 7/2, 4, 9/2, 5]

/-- `normalizeStringPtr`: trim; empty or whitespace-only becomes unset. -/
def normalizeStringPtr : Option String → Option String
  | none => none
  | some s =>
    let val := trimSpace s
    if val = "" then none else some val

/-- `firstNonNil` / `firstNonNilInt`: first non-nil pointer wins. -/
def firstNonNil {α : Type} (primary fallback : Option α) : Option α :=
  match primary with
  | some _ => primary
  | none => fallback

/-- SQL `COALESCE` of a parameter with the stored column. -/
def coalesce {α : Type} (a b : Option α) : Option α :=
  match a with
  | some _ => a
  | none => b

/-- `repository.MovieCreateParams`. -/
structure MovieCreateParams where
  title : String
  releaseDate : Nat × Nat × Nat
  genre : String
  distributor : Option String
  budget : Option Int
  mpaRating : Option String
  boxOffice : Option BoxOffice
deriving DecidableEq

/-- `MoviesRepository.Create`: `INSERT ... RETURNING` with the generated
`release_year` column and `created_at = updated_at = now()`; the UUID id
is database-generated (a parameter here). -/
def createMovie (params : MovieCreateParams) (id : String) (now : Nat) :
    Movie :=
  { id := id, title := params.title, releaseDate := params.releaseDate,
    releaseYear := params.releaseDate.1, genre := params.genre,
    distributor := params.distributor, budget := params.budget,
    mpaRating := params.mpaRating, boxOffice := params.boxOffice,
    createdAt := now, updatedAt := now }

/-- `MoviesRepository.UpdateMetadata`: `COALESCE` keeps stored values for
absent parameters, `box_office` is replaced unconditionally, `updated_at`
is refreshed; `ErrNotFound` when the id does not exist. -/
def updateMetadata (store : List Movie) (id : String)
    (distributor : Option String) (budget : Option Int)
    (mpaRating : Option String) (boxOffice : Option BoxOffice) (now : Nat) :
    Except RepoError (List Movie × Movie) :=
  match store.find? (fun m => m.id == id) with
  | none => .error .notFound
  | some m =>
    let updated := { m with
      distributor := coalesce distributor m.distributor,
      budget := coalesce budget m.budget,
      mpaRating := coalesce mpaRating m.mpaRating,
      boxOffice := boxOffice,
      updatedAt := now }
    .ok (store.map (fun x => if x.id == id then updated else x), updated)

/-- `MoviesRepository.GetByTitle` via `FindByKeys`: succeeds only when the
title matches exactly one movie; zero or several matches are
`ErrNotFound`. -/
def getByTitle (store : List Movie) (title : String) :
    Except RepoError Movie :=
  match store.filter (fun m => m.title == title) with
  | [m] => .ok m
  | _ => .error .notFound

/-- `boxoffice.Result`. -/
structure BoxOfficeResult where
  distributor : Option String
  budget : Option Int
  mpaRating : Option String
  boxOffice : Option BoxOffice
deriving DecidableEq

/-- Outcome of `boxoffice.Client.Fetch` as seen by the handler: success,
`ErrNotFound` (upstream 404), or any other failure (timeout, malformed
payload, unexpected status — all returned as plain errors by `Fetch`). -/
inductive FetchOutcome where
  | ok (result : BoxOfficeResult)
  | notFound
  | failure
deriving DecidableEq

/-- `movieCreateRequest` after JSON decoding; `releaseDate = none` models a
body whose date string fails `time.Parse("2006-01-02", ...)`. -/
structure MovieCreateRequest where
  title : String
  genre : String
  releaseDate : Option (Nat × Nat × Nat)
  distributor : Option String
  budget : Option Int
  mpaRating : Option String
deriving DecidableEq

/-- HTTP error classes produced by the handlers. -/
inductive HttpError where
  | unauthorized
  | badRequest
  | validation
  | notFoundE
  | internal
deriving DecidableEq

/-- `Server.enrichMovieWithBoxOffice`: on fetch error (including
`ErrNotFound`, timeout and malformed payloads) the movie is returned as
created; on success the caller-unset fields are filled from the provider
and the box-office document attached via `UpdateMetadata`; an update
failure also falls back to the created movie. -/
def enrichMovieWithBoxOffice (store : List Movie) (movie : Movie)
    (req : MovieCreateRequest) (fetch : FetchOutcome) (now : Nat) :
    Movie × List Movie :=
  match fetch with
  | .notFound => (movie, store)
  | .failure => (movie, store)
  | .ok result =>
    let distributor :=
      firstNonNil (normalizeStringPtr req.distributor) result.distributor
    let budget := firstNonNil req.budget result.budget
    let mpa := firstNonNil (normalizeStringPtr req.mpaRating) result.mpaRating
    match updateMetadata store movie.id distributor budget mpa
        result.boxOffice now with
    | .ok (store2, updated) => (updated, store2)
    | .error _ => (movie, store)

/-- `Server.handleCreateMovie`: bearer check, JSON validation, insert, then
best-effort enrichment; responds `201 Created` with the (possibly
enriched) movie. -/
def handleCreateMovie (store : List Movie) (authOk : Bool)
    (req : MovieCreateRequest) (newId : String) (now : Nat)
    (fetch : FetchOutcome) :
    Except HttpError (Nat × Movie) × List Movie :=
  if ¬authOk then (.error .unauthorized, store)
  else
    match req.releaseDate with
    | none => (.error .validation, store)
    | some rd =>
      if trimSpace req.title = "" ∨ trimSpace req.genre = "" then
        (.error .validation, store)
      else if (match req.budget with
               | some b => decide (b < 0)
               | none => false) = true then
        (.error .validation, store)
      else
        let movie := createMovie
          { title := trimSpace req.title, releaseDate := rd,
            genre := trimSpace req.genre,
            distributor := normalizeStringPtr req.distributor,
            budget := req.budget,
            mpaRating := normalizeStringPtr req.mpaRating,
            boxOffice := none } newId now
        let store1 := store ++ [movie]
        let enriched := enrichMovieWithBoxOffice store1 movie req fetch now
        (.ok (201, enriched.1), enriched.2)

/-- `Server.handleSubmitRating`: rater header required, movie resolved by
title, body decoded (`none` models a malformed body), the value checked
against the ten-step set before the upsert; `201` on insert, `200` on
update. -/
def handleSubmitRating (movies : List Movie) (ratings : List Rating)
    (title : String) (raterIDHeader : String) (body : Option ℚ)
    (now : Nat) : Except HttpError (Nat × Rating) × List Rating :=
  let raterID := trimSpace raterIDHeader
  if raterID = "" then (.error .unauthorized, ratings)
  else
    match getByTitle movies title with
    | .error _ => (.error .notFoundE, ratings)
    | .ok movie =>
      match body with
      | none => (.error .validation, ratings)
      | some v =>
        if allowedRatings.contains v = false then
          (.error .validation, ratings)
        else
          match upsert movies ratings
              { movieID := movie.id, raterID := raterID, value := v } now with
          | .ok (ratings2, rating, inserted) =>
            (.ok (if inserted then 201 else 200, rating), ratings2)
          | .error .notFound => (.error .notFoundE, ratings)
          | .error .internal => (.error .internal, ratings)

/-- `math.Round`: round half away from zero. -/
def mathRound (x : ℚ) : ℚ :=
  if 0 ≤ x then ((x + 1 / 2).floor : ℚ) else -(((-x + 1 / 2).floor : ℚ))

/-- `roundToOneDecimal` (movies.go). -/
def roundToOneDecimal (value : ℚ) : ℚ := mathRound (value * 10) / 10

/-- `Server.handleGetRating`: resolve by title, aggregate, round. -/
def handleGetRating (movies : List Movie) (ratings : List Rating)
    (title : String) : Except HttpError RatingAggregate :=
  match getByTitle movies title with
  | .error _ => .error .notFoundE
  | .ok movie =>
    let agg := aggregate ratings movie.id
    .ok { average := roundToOneDecimal agg.average, count := agg.count }

instance : IsTotal Movie movieGe where
  total := by
    intro a b
    rcases Nat.lt_trichotomy (movieKey a).1 (movieKey b).1 with h | h | h
    · exact Or.inr (Or.inl (Or.inl h))
    · rcases lt_trichotomy (movieKey a).2 (movieKey b).2 with h2 | h2 | h2
      · exact Or.inr (Or.inl (Or.inr ⟨h, h2⟩))
      · exact Or.inl (Or.inr (Prod.ext h h2).symm)
      · exact Or.inl (Or.inl (Or.inr ⟨h.symm, h2⟩))
    · exact Or.inl (Or.inl (Or.inl h))

instance : IsTrans Movie movieGe where
  trans := by
    intro a b c h1 h2
    have ktr : ∀ {x y z : Nat × String},
        keyLt x y → keyLt y z → keyLt x z := by
      intro x y z hxy hyz
      rcases hxy with hxy | ⟨e1, hxy⟩ <;> rcases hyz with hyz | ⟨e2, hyz⟩
      · exact Or.inl (lt_trans hxy hyz)
      · exact Or.inl (e2 ▸ hxy)
      · exact Or.inl (e1 ▸ hyz)
      · exact Or.inr ⟨e1.trans e2, lt_trans hxy hyz⟩
    rcases h1 with h1 | h1 <;> rcases h2 with h2 | h2
    · exact Or.inl (ktr h2 h1)
    · exact Or.inl (h2 ▸ h1)
    · exact Or.inl (h1 ▸ h2)
    · exact Or.inr (h2.trans h1)

instance : IsTrans Movie movieGt where
  trans := by
    intro a b c h1 h2
    rcases h2 with h2 | ⟨e2, h2⟩ <;> rcases h1 with h1 | ⟨e1, h1⟩
    · exact Or.inl (lt_trans h2 h1)
    · exact Or.inl (e1 ▸ h2)
    · exact Or.inl (e2 ▸ h1)
    · exact Or.inr ⟨e2.trans e1, lt_trans h2 h1⟩

instance : IsAntisymm Movie movieGt where
  antisymm := by
    intro a b h1 h2
    exfalso
    rcases h1 with h1 | ⟨e1, h1⟩ <;> rcases h2 with h2 | ⟨e2, h2⟩
    · exact lt_irrefl _ (lt_trans h1 h2)
    · exact lt_irrefl _ (e2 ▸ h1)
    · exact lt_irrefl _ (e1 ▸ h2)
    · exact lt_irrefl _ (lt_trans h1 h2)

/-- A sequence of rating submissions by one rater for one movie, applied
through `Upsert`; a failed upsert leaves the table unchanged. -/
def submitSeq (movies : List Movie) (mid rid : String) :
    List Rating → List (ℚ × Nat) → List Rating
  | ratings, [] => ratings
  | ratings, (v, t) :: rest =>
    match upsert movies ratings
        { movieID := mid, raterID := rid, value := v } t with
    | .ok (r2, _, _) => submitSeq movies mid rid r2 rest
    | .error _ => submitSeq movies mid rid ratings rest

/-! ### Filter semantics: substring vs. exact `ILIKE` matching -/

/-- The free-text clause
`(title ILIKE '%q%' OR distributor ILIKE '%q%')` of `List`. -/
def clauseQuery (oq : Option String) (m : Movie) : Bool :=
  match oq with
  | none => true
  | some q =>
    if trimSpace q = "" then true
    else
      let pat := "%" ++ trimSpace q ++ "%"
      ilike m.title pat ||
        (match m.distributor with
         | some d => ilike d pat
         | none => false)

/-- The clause `release_year = y` of `List`. -/
def clauseYear (oy : Option Nat) (m : Movie) : Bool :=
  match oy with
  | none => true
  | some y => m.releaseYear == y

/-- The clause `genre ILIKE g` of `List` (no wildcards added). -/
def clauseGenre (og : Option String) (m : Movie) : Bool :=
  match og with
  | none => true
  | some g =>
    if trimSpace g = "" then true else ilike m.genre (trimSpace g)

/-- The clause `distributor ILIKE d` of `List` (no wildcards added). -/
def clauseDistrib (od : Option String) (m : Movie) : Bool :=
  match od with
  | none => true
  | some dv =>
    if trimSpace dv = "" then true
    else
      match m.distributor with
      | some d => ilike d (trimSpace dv)
      | none => false

/-- The clause `budget <= b` of `List`. -/
def clauseBudget (ob : Option Int) (m : Movie) : Bool :=
  match ob with
  | none => true
  | some b =>
    match m.budget with
    | some mb => mb ≤ b
    | none => false

/-- The clause `mpa_rating ILIKE r` of `List` (no wildcards added). -/
def clauseMpa (orat : Option String) (m : Movie) : Bool :=
  match orat with
  | none => true
  | some r =>
    if trimSpace r = "" then true
    else
      match m.mpaRating with
      | some mr => ilike mr (trimSpace r)
      | none => false

/-- A movie whose genre merely *contains* a genre filter as a substring. -/
def mC5Action : Movie :=
  { id := "m1", title := "Alien", releaseDate := (1979, 5, 25),
    releaseYear := 1979, genre := "Action", distributor := some "Fox",
    budget := some 11, mpaRating := some "R", boxOffice := none,
    createdAt := 100, updatedAt := 100 }

/-- A movie matched by every kind of filter at once. -/
def mC5All : Movie :=
  { id := "m2", title := "The Action Movie", releaseDate := (1999, 3, 31),
    releaseYear := 1999, genre := "Action",
    distributor := some "Warner Bros", budget := some 63,
    mpaRating := some "R", boxOffice := none,
    createdAt := 7, updatedAt := 7 }

/-- A filter set exercising every clause of the `List` WHERE clause. -/
def fC5All : MovieListFilters :=
  { query := some " action ", year := some 1999, genre := some "ACTION",
    distributor := some "warner bros", budgetLTE := some 100,
    mpaRating := some "r" }

/-! ### Listing order and pagination (C2) -/

/-- Two movies with distinct `(created_at, id)` keys, matching the trivial
filter set. -/
def mC2a : Movie :=
  { id := "a", title := "A", releaseDate := (2000, 1, 1),
    releaseYear := 2000, genre := "Drama", distributor := none,
    budget := none, mpaRating := none, boxOffice := none,
    createdAt := 10, updatedAt := 10 }

def mC2b : Movie :=
  { id := "b", title := "B", releaseDate := (2000, 1, 2),
    releaseYear := 2000, genre := "Drama", distributor := none,
    budget := none, mpaRating := none, boxOffice := none,
    createdAt := 20, updatedAt := 20 }

def storeC2 : List Movie := [mC2a, mC2b]

/-! ### Theorems -/

/-- The result of `likeMatchF` does not depend on the fuel, as long as the
fuel exceeds the combined length of pattern and text. -/
theorem likeMatchF_congr : ∀ f g p t, p.length + t.length < f →
    p.length + t.length < g → likeMatchF f p t = likeMatchF g p t := by
  intro f
  induction f with
  | zero => intro g p t hf _; omega
  | succ f1 ih =>
    intro g p t hf hg
    obtain ⟨g1, rfl⟩ : ∃ g1, g = g1 + 1 := ⟨g - 1, by omega⟩
    cases p with
    | nil => rfl
    | cons c p =>
      simp only [List.length_cons] at hf hg
      by_cases hc : c = '%'
      · simp only [likeMatchF, if_pos hc]
        rw [ih g1 p t (by omega) (by omega)]
        cases t with
        | nil => rfl
        | cons d t2 =>
          simp only [List.length_cons] at hf hg
          simp only [ih g1 (c :: p) t2 (by simp; omega) (by simp; omega)]
      · by_cases hb : c = '\\'
        · simp only [likeMatchF, if_neg hc, if_pos hb]
          cases p with
          | nil => cases t <;> rfl
          | cons pc p2 =>
            cases t with
            | nil => rfl
            | cons d t2 =>
              simp only [List.length_cons] at hf hg
              simp only [ih g1 p2 t2 (by omega) (by omega)]
        · simp only [likeMatchF, if_neg hc, if_neg hb]
          cases t with
          | nil => rfl
          | cons d t2 =>
            simp only [List.length_cons] at hf hg
            simp only [ih g1 p t2 (by omega) (by omega)]

theorem likeMatchF_eq_likeMatch (f : Nat) (p t : List Char)
    (h : p.length + t.length < f) : likeMatchF f p t = likeMatch p t :=
  likeMatchF_congr f (p.length + t.length + 1) p t h (by omega)

theorem likeMatch_nil (t : List Char) : likeMatch [] t = t.isEmpty := rfl

theorem likeMatchF_succ_pct (f : Nat) (p t : List Char) :
    likeMatchF (f + 1) ('%' :: p) t =
      (likeMatchF f p t ||
        match t with
        | [] => false
        | _ :: t2 => likeMatchF f ('%' :: p) t2) := rfl

theorem likeMatchF_succ_chr (f : Nat) (c : Char) (p t : List Char)
    (hc : c ≠ '%') (hb : c ≠ '\\') :
    likeMatchF (f + 1) (c :: p) t =
      (match t with
       | [] => false
       | d :: t2 => (c == '_' || c == d) && likeMatchF f p t2) := by
  rw [likeMatchF.eq_def]
  dsimp only
  rw [if_neg hc, if_neg hb]

theorem likeMatch_pct (p t : List Char) :
    likeMatch ('%' :: p) t =
      (likeMatch p t ||
        match t with
        | [] => false
        | _ :: t2 => likeMatch ('%' :: p) t2) := by
  show likeMatchF _ _ _ = _
  rw [likeMatchF_succ_pct,
    likeMatchF_eq_likeMatch _ p t (by simp only [List.length_cons]; omega)]
  cases t with
  | nil => rfl
  | cons d t2 =>
    dsimp only
    rw [likeMatchF_eq_likeMatch _ ('%' :: p) t2
      (by simp only [List.length_cons]; omega)]

theorem likeMatch_chr (c : Char) (p t : List Char) (hc : c ≠ '%')
    (hb : c ≠ '\\') :
    likeMatch (c :: p) t =
      (match t with
       | [] => false
       | d :: t2 => (c == '_' || c == d) && likeMatch p t2) := by
  show likeMatchF _ _ _ = _
  rw [likeMatchF_succ_chr _ c p t hc hb]
  cases t with
  | nil => rfl
  | cons d t2 =>
    dsimp only
    rw [likeMatchF_eq_likeMatch _ p t2
      (by simp only [List.length_cons]; omega)]

/-- A wildcard-free pattern matches exactly the identical text:
`LIKE` without `%`/`_` is equality. -/
theorem likeMatch_plain (p : List Char) (hp : plainPat p = true) :
    ∀ t, (likeMatch p t = true ↔ p = t) := by
  induction p with
  | nil =>
    intro t
    rw [likeMatch_nil]
    cases t <;> simp
  | cons c p ih =>
    intro t
    simp only [plainPat, List.all_cons, Bool.and_eq_true, plainChar] at hp
    obtain ⟨hc, hrest⟩ := hp
    simp only [Bool.not_eq_eq_eq_not, Bool.not_true, Bool.or_eq_false_iff,
      beq_eq_false_iff_ne, ne_eq] at hc
    obtain ⟨⟨hpc, hus⟩, hbs⟩ := hc
    rw [likeMatch_chr c p t hpc hbs]
    cases t with
    | nil => simp
    | cons d t2 =>
      have hu : (c == '_') = false := by simp [hus]
      simp only [hu, Bool.false_or, Bool.and_eq_true, beq_iff_eq,
        List.cons.injEq]
      rw [ih (by simp [plainPat, hrest]) t2]

theorem isSubCh_iff_infix (p : List Char) :
    ∀ t, (isSubCh p t = true ↔ p <:+: t) := by
  intro t
  induction t with
  | nil =>
    simp [isSubCh, List.isPrefixOf_iff_prefix, List.prefix_iff_eq_append]
  | cons d t2 ih =>
    simp only [isSubCh, Bool.or_eq_true, List.isPrefixOf_iff_prefix, ih,
      List.infix_cons_iff]

/-- A wildcard-free pattern followed by `%` matches prefixes. -/
theorem likeMatch_plain_pct (p : List Char) (hp : plainPat p = true) :
    ∀ t, (likeMatch (p ++ ['%']) t = true ↔ p.isPrefixOf t = true) := by
  induction p with
  | nil =>
    intro t
    simp only [List.nil_append]
    have hm : ∀ u, likeMatch ['%'] u = true := by
      intro u
      induction u with
      | nil => rfl
      | cons d u2 ihu =>
        rw [likeMatch_pct]
        dsimp only
        rw [ihu]
        simp
    simp [hm t, List.isPrefixOf]
  | cons c p ih =>
    intro t
    simp only [plainPat, List.all_cons, Bool.and_eq_true, plainChar] at hp
    obtain ⟨hc, hrest⟩ := hp
    simp only [Bool.not_eq_eq_eq_not, Bool.not_true, Bool.or_eq_false_iff,
      beq_eq_false_iff_ne, ne_eq] at hc
    obtain ⟨⟨hpc, hus⟩, hbs⟩ := hc
    rw [List.cons_append, likeMatch_chr c (p ++ ['%']) t hpc hbs]
    cases t with
    | nil => simp [List.isPrefixOf]
    | cons d t2 =>
      have hu : (c == '_') = false := by simp [hus]
      simp only [hu, Bool.false_or, Bool.and_eq_true, beq_iff_eq,
        List.isPrefixOf, ih (by simp [plainPat, hrest]) t2]

/-- `'%p%'` with a wildcard-free `p` matches exactly the texts containing
`p` as a substring. -/
theorem likeMatch_pct_wrap (p : List Char) (hp : plainPat p = true)
    (t : List Char) :
    (likeMatch ('%' :: (p ++ ['%'])) t = true ↔ isSubCh p t = true) := by
  induction t with
  | nil =>
    rw [likeMatch_pct]
    simp only [Bool.or_false, isSubCh, likeMatch_plain_pct p hp]
  | cons d t2 ih =>
    rw [likeMatch_pct]
    simp only [Bool.or_eq_true, likeMatch_plain_pct p hp, ih, isSubCh]

theorem b64Dec_b64Char : ∀ n, n < 64 → b64Dec (b64Char n) = some n := by
  decide

theorem b64Char_ne_pad : ∀ n, n < 64 → b64Char n ≠ '=' := by decide

theorem b64Char_not_crlf : ∀ n, n < 64 →
    (!(b64Char n == '\r' || b64Char n == '\n')) = true := by decide

theorem b64EncodeBytes_no_crlf (bs : List Nat) (h : ∀ b ∈ bs, b < 256) :
    (b64EncodeBytes bs).filter (fun c => !(c == '\r' || c == '\n'))
      = b64EncodeBytes bs := by
  rw [List.filter_eq_self]
  induction bs using b64EncodeBytes.induct with
  | case1 => intro c hc; simp [b64EncodeBytes] at hc
  | case2 b1 =>
    have hb1 : b1 < 256 := h b1 (by simp)
    intro c hc
    simp only [b64EncodeBytes, List.mem_cons, List.not_mem_nil, or_false] at hc
    rcases hc with rfl | rfl | rfl | rfl
    · exact b64Char_not_crlf _ (by omega)
    · exact b64Char_not_crlf _ (by omega)
    · decide
    · decide
  | case3 b1 b2 =>
    have hb1 : b1 < 256 := h b1 (by simp)
    have hb2 : b2 < 256 := h b2 (by simp)
    intro c hc
    simp only [b64EncodeBytes, List.mem_cons, List.not_mem_nil, or_false] at hc
    rcases hc with rfl | rfl | rfl | rfl
    · exact b64Char_not_crlf _ (by omega)
    · exact b64Char_not_crlf _ (by omega)
    · exact b64Char_not_crlf _ (by omega)
    · decide
  | case4 b1 b2 b3 rest ih =>
    have hb1 : b1 < 256 := h b1 (by simp)
    have hb2 : b2 < 256 := h b2 (by simp)
    have hb3 : b3 < 256 := h b3 (by simp)
    intro c hc
    simp only [b64EncodeBytes, List.mem_cons] at hc
    rcases hc with rfl | rfl | rfl | rfl | hmem
    · exact b64Char_not_crlf _ (by omega)
    · exact b64Char_not_crlf _ (by omega)
    · exact b64Char_not_crlf _ (by omega)
    · exact b64Char_not_crlf _ (by omega)
    · exact ih (fun b hb => h b (by simp [hb])) c hmem

theorem b64DecodeQuads_encode (bs : List Nat) (h : ∀ b ∈ bs, b < 256) :
    b64DecodeQuads (b64EncodeBytes bs) = some bs := by
  induction bs using b64EncodeBytes.induct with
  | case1 => rfl
  | case2 b1 =>
    have hb1 : b1 < 256 := h b1 (by simp)
    simp only [b64EncodeBytes, b64DecodeQuads,
      b64Dec_b64Char _ (show b1 / 4 < 64 by omega),
      b64Dec_b64Char _ (show b1 % 4 * 16 < 64 by omega), Option.some_bind]
    simp only [if_true, List.isEmpty_nil, Option.some.injEq, List.cons.injEq,
      and_true]
    omega
  | case3 b1 b2 =>
    have hb1 : b1 < 256 := h b1 (by simp)
    have hb2 : b2 < 256 := h b2 (by simp)
    simp only [b64EncodeBytes, b64DecodeQuads,
      b64Dec_b64Char _ (show b1 / 4 < 64 by omega),
      b64Dec_b64Char _ (show b1 % 4 * 16 + b2 / 16 < 64 by omega),
      b64Dec_b64Char _ (show b2 % 16 * 4 < 64 by omega), Option.some_bind]
    simp only [if_true, List.isEmpty_nil, Option.some.injEq, List.cons.injEq,
      and_true]
    rw [if_neg (b64Char_ne_pad _ (show b2 % 16 * 4 < 64 by omega))]
    simp only [Option.some.injEq, List.cons.injEq, and_true]
    omega
  | case4 b1 b2 b3 rest ih =>
    have hb1 : b1 < 256 := h b1 (by simp)
    have hb2 : b2 < 256 := h b2 (by simp)
    have hb3 : b3 < 256 := h b3 (by simp)
    have hrest : ∀ b ∈ rest, b < 256 := fun b hb => h b (by simp [hb])
    simp only [b64EncodeBytes, b64DecodeQuads,
      b64Dec_b64Char _ (show b1 / 4 < 64 by omega),
      b64Dec_b64Char _ (show b1 % 4 * 16 + b2 / 16 < 64 by omega),
      b64Dec_b64Char _ (show b2 % 16 * 4 + b3 / 64 < 64 by omega),
      b64Dec_b64Char _ (show b3 % 64 < 64 by omega), Option.some_bind]
    rw [ih hrest]
    simp only [Option.map_some', Option.some.injEq, List.cons.injEq]
    rw [if_neg (b64Char_ne_pad _ (show b2 % 16 * 4 + b3 / 64 < 64 by omega)),
      if_neg (b64Char_ne_pad _ (show b3 % 64 < 64 by omega))]
    simp only [Option.some.injEq, List.cons.injEq, and_true]
    omega

theorem b64Decode_encode (bs : List Nat) (h : ∀ b ∈ bs, b < 256) :
    b64Decode (b64EncodeBytes bs) = some bs := by
  rw [b64Decode, b64EncodeBytes_no_crlf bs h, b64DecodeQuads_encode bs h]

theorem digitChar_facts : ∀ d, d < 10 →
    (isDigitCh (digitChar d) = true ∧ (digitChar d).toNat - 48 = d) := by
  decide

theorem isDigitCh_ne : ∀ c, isDigitCh c = true → c ≠ '"' ∧ c ≠ '\\' := by
  intro c h
  refine ⟨?_, ?_⟩ <;> rintro rfl <;> revert h <;> decide

theorem natToCharsF_spec : ∀ f n, n < f →
    natToCharsF f n ≠ [] ∧ (natToCharsF f n).all isDigitCh = true ∧
      digitsToNat (natToCharsF f n) = n := by
  intro f
  induction f with
  | zero => intro n h; omega
  | succ f1 ih =>
    intro n h
    by_cases h10 : n < 10
    · simp only [natToCharsF, if_pos h10]
      refine ⟨by simp, ?_, ?_⟩
      · simp [List.all_cons, (digitChar_facts n h10).1]
      · simp [digitsToNat, (digitChar_facts n h10).2]
    · simp only [natToCharsF, if_neg h10]
      obtain ⟨hne, hall, hval⟩ := ih (n / 10) (by omega)
      refine ⟨by simp, ?_, ?_⟩
      · simp [List.all_append, hall, List.all_cons,
          (digitChar_facts (n % 10) (by omega)).1]
      · rw [digitsToNat, List.foldl_append]
        rw [digitsToNat] at hval
        simp only [List.foldl_cons, List.foldl_nil, hval,
          (digitChar_facts (n % 10) (by omega)).2]
        omega

theorem natToChars_spec (n : Nat) :
    natToChars n ≠ [] ∧ (natToChars n).all isDigitCh = true ∧
      digitsToNat (natToChars n) = n :=
  natToCharsF_spec (n + 1) n (by omega)

theorem parseStrF_plain : ∀ f xs rest, xs.length < f →
    (∀ c ∈ xs, c ≠ '"' ∧ c ≠ '\\') →
    parseStrF f (xs ++ '"' :: rest) = some (xs, rest) := by
  intro f
  induction f with
  | zero => intro xs rest hf; omega
  | succ f1 ih =>
    intro xs rest hf hx
    cases xs with
    | nil =>
      simp only [List.nil_append, parseStrF]
      simp
    | cons c xs =>
      have hc := hx c (by simp)
      simp only [List.cons_append, parseStrF, if_neg hc.1, if_neg hc.2,
        List.append_eq]
      rw [ih xs rest (by simp only [List.length_cons] at hf; omega)
        (fun d hd => hx d (by simp [hd]))]
      rfl

theorem parseStr_plain (xs rest : List Char)
    (hx : ∀ c ∈ xs, c ≠ '"' ∧ c ≠ '\\') :
    parseStr (xs ++ '"' :: rest) = some (xs, rest) :=
  parseStrF_plain _ xs rest
    (by simp only [List.length_append, List.length_cons]; omega) hx

theorem parseStrF_escape : ∀ f xs rest, xs.length < f →
    parseStrF f (escapeJson xs ++ '"' :: rest) = some (xs, rest) := by
  intro f
  induction f with
  | zero => intro xs rest hf; omega
  | succ f1 ih =>
    intro xs rest hf
    cases xs with
    | nil =>
      simp only [escapeJson, List.nil_append, parseStrF]
      simp
    | cons c xs =>
      simp only [List.length_cons] at hf
      by_cases hc : c = '"' ∨ c = '\\'
      · simp only [escapeJson, if_pos hc, List.cons_append, parseStrF,
          if_neg (by decide : ¬('\\' : Char) = '"'), if_pos rfl,
          List.append_eq]
        rw [ih xs rest (by omega)]
        rfl
      · push_neg at hc
        simp only [escapeJson, if_neg (not_or.mpr hc), List.cons_append,
          parseStrF, if_neg hc.1, if_neg hc.2, List.append_eq]
        rw [ih xs rest (by omega)]
        rfl

theorem escapeJson_length : ∀ xs : List Char, xs.length ≤ (escapeJson xs).length := by
  intro xs
  induction xs with
  | nil => simp [escapeJson]
  | cons c xs ih =>
    by_cases hc : c = '"' ∨ c = '\\' <;>
      simp only [escapeJson, if_pos, if_neg, hc, if_true, if_false,
        List.length_cons] <;> omega

theorem parseStr_escape (xs rest : List Char) :
    parseStr (escapeJson xs ++ '"' :: rest) = some (xs, rest) :=
  parseStrF_escape _ xs rest (by
    have := escapeJson_length xs
    simp only [List.length_append, List.length_cons]
    omega)

theorem parseCursorFields_marshal (f : Nat) (t : Nat) (id : String) :
    parseCursorFieldsF (f + 2)
      ('"' :: ("createdAt".data ++ ('"' :: ':' :: '"' ::
        (natToChars t ++ ('"' :: ',' :: '"' :: ("id".data ++ ('"' :: ':' :: '"' ::
          (escapeJson id.data ++ ['"', '\x7d']))))))))
      { createdAt := 0, id := "" }
      = some { createdAt := t, id := id } := by
  have hplainCA : ∀ c ∈ "createdAt".data, c ≠ '"' ∧ c ≠ '\\' := by decide
  have hplainID : ∀ c ∈ "id".data, c ≠ '"' ∧ c ≠ '\\' := by decide
  obtain ⟨hdne, hdall, hdval⟩ := natToChars_spec t
  have hplainD : ∀ c ∈ natToChars t, c ≠ '"' ∧ c ≠ '\\' := by
    intro c hc
    exact isDigitCh_ne c (by
      have := List.all_eq_true.mp hdall c hc
      simpa using this)
  have hid : String.mk id.data = id := by cases id; rfl
  simp +decide only [parseCursorFieldsF, if_true,
    parseStr_plain "createdAt".data _ hplainCA,
    parseStr_plain (natToChars t) _ hplainD,
    parseStr_plain "id".data _ hplainID,
    parseStr_escape id.data, Option.some_bind, hdval, hdne, hdall, hid,
    List.isEmpty_nil, if_false]

  simp only [Bool.and_true, decide_eq_true_eq]
  rw [if_pos hdne, Option.some_bind]

theorem unmarshal_marshal (c : MovieCursor) :
    unmarshalCursor (marshalCursor c) = some c := by
  obtain ⟨t, id⟩ := c
  have hm : marshalCursor ⟨t, id⟩ = '\x7b' :: '"' :: ("createdAt".data ++
      ('"' :: ':' :: '"' :: (natToChars t ++ ('"' :: ',' :: '"' ::
        ("id".data ++ ('"' :: ':' :: '"' ::
          (escapeJson id.data ++ ['"', '\x7d']))))))) := by
    simp [marshalCursor]
  rw [hm]
  simp only [unmarshalCursor, if_true]
  rw [if_neg (by decide : ¬('"' : Char) = '\x7d')]
  have hlen : ('"' :: ("createdAt".data ++ ('"' :: ':' :: '"' ::
      (natToChars t ++ ('"' :: ',' :: '"' :: ("id".data ++ ('"' :: ':' :: '"' ::
        (escapeJson id.data ++ ['"', '\x7d'])))))))).length + 1
      = (('"' :: ("createdAt".data ++ ('"' :: ':' :: '"' ::
      (natToChars t ++ ('"' :: ',' :: '"' :: ("id".data ++ ('"' :: ':' :: '"' ::
        (escapeJson id.data ++ ['"', '\x7d'])))))))).length - 1) + 2 := by
    simp only [List.length_cons]
    omega
  rw [hlen, parseCursorFields_marshal]

theorem isDigitCh_toNat (c : Char) (h : isDigitCh c = true) :
    c.toNat < 256 := by
  simp only [isDigitCh, Bool.and_eq_true, decide_eq_true_eq] at h
  have h2 : c.toNat ≤ 57 := h.2
  omega

theorem escapeJson_mem : ∀ xs c, c ∈ escapeJson xs → c = '\\' ∨ c ∈ xs := by
  intro xs
  induction xs with
  | nil => intro c hc; simp [escapeJson] at hc
  | cons d xs ih =>
    intro c hc
    by_cases hd : d = '"' ∨ d = '\\'
    · simp only [escapeJson, if_pos hd, List.mem_cons] at hc
      rcases hc with rfl | rfl | h
      · exact Or.inl rfl
      · exact Or.inr (by simp)
      · rcases ih c h with h1 | h1
        · exact Or.inl h1
        · exact Or.inr (by simp [h1])
    · simp only [escapeJson, if_neg hd, List.mem_cons] at hc
      rcases hc with rfl | h
      · exact Or.inr (by simp)
      · rcases ih c h with h1 | h1
        · exact Or.inl h1
        · exact Or.inr (by simp [h1])

theorem marshalCursor_bytes (c : MovieCursor)
    (h : ∀ ch ∈ c.id.data, ch.toNat < 256) :
    ∀ ch ∈ marshalCursor c, ch.toNat < 256 := by
  have hCA : ∀ x ∈ "createdAt".data, Char.toNat x < 256 := by decide
  have hID : ∀ x ∈ "id".data, Char.toNat x < 256 := by decide
  obtain ⟨-, hdall, -⟩ := natToChars_spec c.createdAt
  have hD : ∀ x ∈ natToChars c.createdAt, Char.toNat x < 256 := fun x hx =>
    isDigitCh_toNat x (by simpa using List.all_eq_true.mp hdall x hx)
  have hE : ∀ x ∈ escapeJson c.id.data, Char.toNat x < 256 := by
    intro x hx
    rcases escapeJson_mem c.id.data x hx with rfl | hmem
    · decide
    · exact h x hmem
  simp only [marshalCursor, List.forall_mem_append]
  exact ⟨⟨⟨⟨⟨⟨⟨⟨by decide, hCA⟩, by decide⟩, hD⟩, by decide⟩, hID⟩,
    by decide⟩, hE⟩, by decide⟩

theorem b64EncodeBytes_ne_nil : ∀ b bs, b64EncodeBytes (b :: bs) ≠ [] := by
  intro b bs
  rcases bs with _ | ⟨b2, _ | ⟨b3, rest⟩⟩ <;> simp [b64EncodeBytes]

/-- Round trip: decoding an encoded cursor token recovers the cursor
exactly.  The byte-range hypothesis holds for every cursor the repository
produces (UUID ids are ASCII). -/
theorem decode_encode (c : MovieCursor)
    (h : ∀ ch ∈ c.id.data, ch.toNat < 256) :
    DecodeCursor (encodeCursor c) = .ok (some c) := by
  have hbytes : ∀ b ∈ (marshalCursor c).map Char.toNat, b < 256 := by
    intro b hb
    obtain ⟨ch, hch, rfl⟩ := List.mem_map.mp hb
    exact marshalCursor_bytes c h ch hch
  have hne : encodeCursor c ≠ "" := by
    rw [encodeCursor]
    cases hmc : marshalCursor c with
    | nil => simp [marshalCursor] at hmc
    | cons hd tl =>
      intro heq
      have hdat := congrArg String.data heq
      exact b64EncodeBytes_ne_nil (hd.toNat) (tl.map Char.toNat)
        (by simpa using hdat)
  rw [DecodeCursor, if_neg hne]
  have hdata : (encodeCursor c).data
      = b64EncodeBytes ((marshalCursor c).map Char.toNat) := rfl
  rw [hdata, b64Decode_encode _ hbytes]
  have hcomp : Char.ofNat ∘ Char.toNat = id := funext Char.ofNat_toNat
  have hmap : ((marshalCursor c).map Char.toNat).map Char.ofNat
      = marshalCursor c := by
    rw [List.map_map, hcomp, List.map_id]
  dsimp only
  rw [hmap, unmarshal_marshal]

/-- `roundHalfUp1` is indeed `⌊q·10 + 1/2⌋ / 10`, the round-half-up at the
tenths place. -/
theorem roundHalfUp1_eq_floor (q : ℚ) :
    roundHalfUp1 q = (⌊q * 10 + 1 / 2⌋ : ℚ) / 10 := by
  have h : (q * 10 + 1 / 2).floor = ⌊q * 10 + 1 / 2⌋ := by
    rw [Rat.floor_def, Rat.floor_def']
  rw [roundHalfUp1, h]

/-! ### Ordering facts for the composite key -/

theorem keyLt_irrefl (a : Nat × String) : ¬keyLt a a := by
  rintro (h | ⟨-, h⟩)
  · exact lt_irrefl _ h
  · exact lt_irrefl _ h

theorem keyLt_trans {a b c : Nat × String} (h1 : keyLt a b)
    (h2 : keyLt b c) : keyLt a c := by
  rcases h1 with h1 | ⟨e1, h1⟩ <;> rcases h2 with h2 | ⟨e2, h2⟩
  · exact Or.inl (lt_trans h1 h2)
  · exact Or.inl (e2 ▸ h1)
  · exact Or.inl (e1 ▸ h2)
  · exact Or.inr ⟨e1.trans e2, lt_trans h1 h2⟩

theorem keyLt_total (a b : Nat × String) : keyLt a b ∨ a = b ∨ keyLt b a := by
  rcases Nat.lt_trichotomy a.1 b.1 with h | h | h
  · exact Or.inl (Or.inl h)
  · rcases lt_trichotomy a.2 b.2 with h2 | h2 | h2
    · exact Or.inl (Or.inr ⟨h, h2⟩)
    · exact Or.inr (Or.inl (Prod.ext h h2))
    · exact Or.inr (Or.inr (Or.inr ⟨h.symm, h2⟩))
  · exact Or.inr (Or.inr (Or.inl h))

/-- Non-strict sortedness plus distinct keys gives strict sortedness. -/
theorem sorted_ge_gt {l : List Movie} (hs : l.Sorted movieGe)
    (hn : (l.map movieKey).Nodup) : l.Sorted movieGt := by
  have hne : l.Pairwise (fun a b => movieKey a ≠ movieKey b) :=
    (List.pairwise_map.mp hn)
  exact (hs.and hne).imp (by
    rintro a b ⟨h1 | h1, h2⟩
    · exact h1
    · exact absurd h1.symm h2)

theorem insertionSort_sorted_strict (l : List Movie)
    (hn : (l.map movieKey).Nodup) :
    (List.insertionSort movieGe l).Sorted movieGt := by
  have hge := List.sorted_insertionSort movieGe l
  have hp : List.Perm (List.insertionSort movieGe l) l :=
    List.perm_insertionSort movieGe l
  exact sorted_ge_gt hge (((hp.map movieKey).nodup_iff).mpr hn)

/-- Sorting the rows that pass an extra predicate equals filtering the
sorted rows by that predicate (distinct keys make sorting
deterministic). -/
theorem sort_filter_eq (store : List Movie) (p q : Movie → Bool)
    (hn : (store.map movieKey).Nodup) :
    List.insertionSort movieGe (store.filter fun m => p m && q m)
      = (List.insertionSort movieGe (store.filter p)).filter q := by
  have hn1 : ((store.filter fun m => p m && q m).map movieKey).Nodup :=
    hn.sublist ((store.filter_sublist).map movieKey)
  have hn2 : ((store.filter p).map movieKey).Nodup :=
    hn.sublist ((store.filter_sublist).map movieKey)
  have hperm : List.Perm
      (List.insertionSort movieGe (store.filter fun m => p m && q m))
      ((List.insertionSort movieGe (store.filter p)).filter q) := by
    have h1 : List.Perm
        (List.insertionSort movieGe (store.filter fun m => p m && q m))
        (store.filter fun m => p m && q m) := List.perm_insertionSort _ _
    have h2 : (store.filter fun m => p m && q m)
        = (store.filter p).filter q := by
      rw [List.filter_filter]
      exact List.filter_congr fun x _ => Bool.and_comm _ _
    have h3 : List.Perm ((store.filter p).filter q)
        ((List.insertionSort movieGe (store.filter p)).filter q) :=
      (List.perm_insertionSort movieGe (store.filter p)).symm.filter q
    exact (h1.trans (h2 ▸ List.Perm.refl _)).trans h3
  exact List.eq_of_perm_of_sorted hperm
    (insertionSort_sorted_strict _ hn1)
    ((insertionSort_sorted_strict _ hn2).filter q)

theorem belowCursor_none (m : Movie) : belowCursor none m = true := rfl

/-- The page body of `List`: sorted matching rows, those below the cursor,
truncated at the limit. -/
theorem listMovies_items (store : List Movie) (f : MovieListFilters)
    (hn : (store.map movieKey).Nodup) :
    (listMovies store f).items
      = ((List.insertionSort movieGe
            (store.filter (matchesFilters f))).filter
          (belowCursor f.cursor)).take (effLimit f.limit) := by
  show (List.insertionSort movieGe (store.filter fun m =>
      matchesFilters f m && belowCursor f.cursor m)).take (effLimit f.limit)
      = _
  rw [sort_filter_eq store (matchesFilters f) (belowCursor f.cursor) hn]

theorem listMovies_nextCursor (store : List Movie) (f : MovieListFilters) :
    (listMovies store f).nextCursor
      = (if (listMovies store f).items.length = effLimit f.limit then
          (listMovies store f).items.getLast?.map fun last =>
            encodeCursor { createdAt := last.createdAt, id := last.id }
        else none) := rfl

/-- In a strictly descending list, rows below the key of the head of the
rows below a cursor are exactly the remaining rows below that cursor. -/
theorem filter_below_step : ∀ (all : List Movie), all.Sorted movieGt →
    ∀ (cur : Option MovieCursor) (m : Movie) (rest : List Movie),
    all.filter (belowCursor cur) = m :: rest →
    all.filter (belowCursor (some { createdAt := m.createdAt, id := m.id }))
      = rest := by
  intro all
  induction all with
  | nil => intro _ cur m rest h; simp at h
  | cons a t ih =>
    intro hs cur m rest h
    obtain ⟨hhead, hst⟩ := List.pairwise_cons.mp hs
    by_cases hb : belowCursor cur a = true
    · rw [List.filter_cons_of_pos hb] at h
      injection h with h1 h2
      subst h1
      rw [List.filter_cons_of_neg (by
        simp [belowCursor, movieKey, keyLt_irrefl])]
      rw [← h2]
      have hallt : ∀ x ∈ t,
          belowCursor (some { createdAt := a.createdAt, id := a.id }) x
            = true := by
        intro x hx
        have hgt := hhead x hx
        simp only [belowCursor, decide_eq_true_eq]
        exact hgt
      have hallc : ∀ x ∈ t, belowCursor cur x = true := by
        intro x hx
        have hgt := hhead x hx
        cases cur with
        | none => rfl
        | some c =>
          simp only [belowCursor, decide_eq_true_eq] at hb ⊢
          exact keyLt_trans hgt hb
      rw [List.filter_eq_self.mpr hallt, List.filter_eq_self.mpr hallc]
    · rw [List.filter_cons_of_neg (by simpa using hb)] at h
      have hgoal := ih hst cur m rest h
      rw [List.filter_cons_of_neg ?hna]
      · exact hgoal
      case hna =>
        cases cur with
        | none => exact absurd rfl hb
        | some c =>
          have hm : m ∈ t.filter (belowCursor (some c)) := by
            rw [h]; exact List.mem_cons_self m rest
          have hmbelow := (List.mem_filter.mp hm).2
          simp only [belowCursor, decide_eq_true_eq] at hb hmbelow ⊢
          intro hcon
          exact hb (keyLt_trans hcon hmbelow)

theorem paginate_succ (store : List Movie) (f : MovieListFilters)
    (cur : Option MovieCursor) (fuel : Nat) :
    paginate store f cur (fuel + 1)
      = (match (listMovies store { f with cursor := cur }).nextCursor with
         | none => (listMovies store { f with cursor := cur }).items
         | some tok =>
           match DecodeCursor tok with
           | .ok (some nextCur) =>
             (listMovies store { f with cursor := cur }).items
               ++ paginate store f (some nextCur) fuel
           | _ => (listMovies store { f with cursor := cur }).items) := rfl

/-- Following next-cursors with `limit = 1` enumerates, in order, exactly
the sorted matching rows below the starting cursor. -/
theorem paginate_spec (store : List Movie) (f : MovieListFilters)
    (hn : (store.map movieKey).Nodup)
    (hascii : ∀ m ∈ store, ∀ ch ∈ m.id.data, ch.toNat < 256)
    (hlim : f.limit = 1) :
    ∀ n cur,
      ((List.insertionSort movieGe
          (store.filter (matchesFilters f))).filter (belowCursor cur)).length
        ≤ n →
      paginate store f cur (n + 1)
        = (List.insertionSort movieGe
            (store.filter (matchesFilters f))).filter (belowCursor cur) := by
  have hmatchnodup : ((store.filter (matchesFilters f)).map movieKey).Nodup :=
    hn.sublist ((store.filter_sublist).map movieKey)
  have hsorted := insertionSort_sorted_strict
    (store.filter (matchesFilters f)) hmatchnodup
  have hmf : ∀ cur : Option MovieCursor,
      matchesFilters { f with cursor := cur } = matchesFilters f :=
    fun cur => funext fun m => rfl
  have heff : effLimit f.limit = 1 := by rw [hlim]; rfl
  have hitems : ∀ cur : Option MovieCursor,
      (listMovies store { f with cursor := cur }).items
        = ((List.insertionSort movieGe
            (store.filter (matchesFilters f))).filter
              (belowCursor cur)).take 1 := by
    intro cur
    rw [listMovies_items store _ hn]
    dsimp only
    rw [hmf cur, heff]
  have hnextlim : ∀ cur : Option MovieCursor,
      effLimit ({ f with cursor := cur } : MovieListFilters).limit = 1 :=
    fun cur => heff
  intro n
  induction n with
  | zero =>
    intro cur hlen
    have hempty : (List.insertionSort movieGe
        (store.filter (matchesFilters f))).filter (belowCursor cur) = [] :=
      List.eq_nil_of_length_eq_zero (Nat.le_zero.mp hlen)
    have hi : (listMovies store { f with cursor := cur }).items = [] := by
      rw [hitems cur, hempty]
      rfl
    have hnc : (listMovies store { f with cursor := cur }).nextCursor
        = none := by
      rw [listMovies_nextCursor, hnextlim cur, hi]
      simp
    simp only [paginate, hnc, hi, hempty]
  | succ n ihn =>
    intro cur hlen
    cases hfl : (List.insertionSort movieGe
        (store.filter (matchesFilters f))).filter (belowCursor cur) with
    | nil =>
      have hi : (listMovies store { f with cursor := cur }).items = [] := by
        rw [hitems cur, hfl]
        rfl
      have hnc : (listMovies store { f with cursor := cur }).nextCursor
          = none := by
        rw [listMovies_nextCursor, hnextlim cur, hi]
        simp
      simp only [paginate, hnc, hi]
    | cons m rest =>
      have hi : (listMovies store { f with cursor := cur }).items = [m] := by
        rw [hitems cur, hfl]
        rfl
      have hm_filter : m ∈ (List.insertionSort movieGe
          (store.filter (matchesFilters f))).filter (belowCursor cur) := by
        rw [hfl]
        exact List.mem_cons_self m rest
      have hm_store : m ∈ store := by
        have h1 : m ∈ store.filter (matchesFilters f) :=
          (List.perm_insertionSort movieGe
            (store.filter (matchesFilters f))).mem_iff.mp
            (List.mem_filter.mp hm_filter).1
        exact (List.mem_filter.mp h1).1
      have hdecode : DecodeCursor
          (encodeCursor { createdAt := m.createdAt, id := m.id })
          = .ok (some { createdAt := m.createdAt, id := m.id }) :=
        decode_encode _ (fun ch hch => hascii m hm_store ch hch)
      have hnc : (listMovies store { f with cursor := cur }).nextCursor
          = some (encodeCursor { createdAt := m.createdAt, id := m.id }) := by
        rw [listMovies_nextCursor, hnextlim cur, hi]
        simp
      have hstep := filter_below_step _ hsorted cur m rest hfl
      have hlenrest : ((List.insertionSort movieGe
          (store.filter (matchesFilters f))).filter
            (belowCursor (some { createdAt := m.createdAt, id := m.id }))).length
          ≤ n := by
        rw [hstep]
        rw [hfl] at hlen
        simpa using Nat.lt_succ_iff.mp (Nat.lt_of_lt_of_le
          (by simp) hlen)
      rw [paginate_succ, hnc]
      dsimp only
      rw [hdecode]
      dsimp only
      rw [hi, ihn (some { createdAt := m.createdAt, id := m.id }) hlenrest,
        hstep]
      rfl

theorem b64EncodeBytes_length_ge :
    ∀ bs : List Nat, bs.length ≤ (b64EncodeBytes bs).length := by
  intro bs
  induction bs using b64EncodeBytes.induct with
  | case1 => simp [b64EncodeBytes]
  | case2 b1 => simp [b64EncodeBytes]
  | case3 b1 b2 => simp [b64EncodeBytes]
  | case4 b1 b2 b3 rest ih =>
    simp only [b64EncodeBytes, List.length_cons]
    omega

theorem marshalCursor_length_ge (c : MovieCursor) :
    25 ≤ (marshalCursor c).length := by
  obtain ⟨hne, -, -⟩ := natToChars_spec c.createdAt
  have hpos : 1 ≤ (natToChars c.createdAt).length :=
    List.length_pos.mpr hne
  simp only [marshalCursor, List.length_append, List.length_cons,
    List.length_nil]
  omega

theorem encodeCursor_length_ge (c : MovieCursor) :
    25 ≤ (encodeCursor c).length := by
  have h1 := marshalCursor_length_ge c
  have h2 := b64EncodeBytes_length_ge ((marshalCursor c).map Char.toNat)
  rw [List.length_map] at h2
  have h3 : (encodeCursor c).length
      = (b64EncodeBytes ((marshalCursor c).map Char.toNat)).length := rfl
  omega

/-- C4 counterexample: the token `"e30="` (base64 of `"\x7b\x7d"`, i.e. the
JSON text of an empty object) is not a validly encoded cursor — no cursor
encodes to it — yet `DecodeCursor` silently returns the zero-valued
default cursor instead of an "invalid cursor" error, refuting the claim
that decoding any not-validly-encoded token fails. -/
theorem claim_cursor_counterexample :
    (∀ c : MovieCursor, encodeCursor c ≠ "e30=") ∧
    DecodeCursor "e30=" = .ok (some { createdAt := 0, id := "" }) := by
  constructor
  · intro c heq
    have h := encodeCursor_length_ge c
    rw [heq] at h
    exact absurd h (by decide)
  · rfl

/-- C4 (amended): `DecodeCursor (encodeCursor c)` round-trips exactly; the
empty token is "no cursor" with no error; a non-empty token that fails
base64 decoding yields the distinct `invalid cursor` error, and one whose
decoded payload fails JSON decoding yields the distinct
`invalid cursor payload` error; decoding is total (never crashes).  (A
well-formed JSON object with absent fields, however, decodes to a
default-valued cursor — see the counterexample.) -/
theorem claim_cursor_roundtrip :
    (∀ c : MovieCursor, (∀ ch ∈ c.id.data, ch.toNat < 256) →
      DecodeCursor (encodeCursor c) = .ok (some c)) ∧
    (∀ token : String, token ≠ "" → b64Decode token.data = none →
      DecodeCursor token = .error .invalidCursor) ∧
    (∀ token : String, token ≠ "" → ∀ bytes,
      b64Decode token.data = some bytes →
      unmarshalCursor (bytes.map Char.ofNat) = none →
      DecodeCursor token = .error .invalidPayload) ∧
    DecodeCursor "" = .ok none := by
  refine ⟨decode_encode, ?_, ?_, rfl⟩
  · intro token hne hb
    rw [DecodeCursor, if_neg hne, hb]
  · intro token hne bytes hb hu
    rw [DecodeCursor, if_neg hne, hb]
    dsimp only
    rw [hu]

theorem claim_cursor_roundtrip_witness :
    DecodeCursor (encodeCursor { createdAt := 5, id := "abc" })
      = .ok (some { createdAt := 5, id := "abc" }) ∧
    DecodeCursor "!" = .error .invalidCursor :=
  ⟨claim_cursor_roundtrip.1 _ (by decide),
   claim_cursor_roundtrip.2.1 "!" (by decide) (by decide)⟩

theorem effLimit_pos (limit : Int) : 1 ≤ effLimit limit := by
  unfold effLimit
  split_ifs <;> omega

/-- C6: a next-cursor is emitted iff the page is exactly full with respect
to the effective (defaulted/clamped) limit, and it carries the
`(created_at, id)` of the page's last item. -/
theorem claim_next_cursor (store : List Movie) (f : MovieListFilters) :
    ((listMovies store f).nextCursor.isSome = true
        ↔ (listMovies store f).items.length = effLimit f.limit) ∧
    (∀ last, (listMovies store f).items.getLast? = some last →
      (listMovies store f).items.length = effLimit f.limit →
      (listMovies store f).nextCursor
        = some (encodeCursor { createdAt := last.createdAt, id := last.id })) := by
  constructor
  · rw [listMovies_nextCursor]
    by_cases h : (listMovies store f).items.length = effLimit f.limit
    · rw [if_pos h]
      simp only [h, iff_true]
      have hpos := effLimit_pos f.limit
      have hne : (listMovies store f).items ≠ [] := by
        intro he
        rw [he] at h
        simp only [List.length_nil] at h
        omega
      simp [Option.isSome_map, List.getLast?_isSome, hne]
    · rw [if_neg h]
      simp [h]
  · intro last hlast hfull
    rw [listMovies_nextCursor, if_pos hfull, hlast]
    rfl

theorem claim_next_cursor_witness :
    (listMovies
      [{ id := "a", title := "T", releaseDate := (2020, 1, 1),
         releaseYear := 2020, genre := "G", distributor := none,
         budget := none, mpaRating := none, boxOffice := none,
         createdAt := 2, updatedAt := 2 },
       { id := "b", title := "U", releaseDate := (2021, 1, 1),
         releaseYear := 2021, genre := "G", distributor := none,
         budget := none, mpaRating := none, boxOffice := none,
         createdAt := 1, updatedAt := 1 }]
      { limit := 1 }).nextCursor
      = some (encodeCursor { createdAt := 2, id := "a" }) :=
  (claim_next_cursor _ _).2
    { id := "a", title := "T", releaseDate := (2020, 1, 1),
      releaseYear := 2020, genre := "G", distributor := none,
      budget := none, mpaRating := none, boxOffice := none,
      createdAt := 2, updatedAt := 2 }
    (by decide) (by decide)

/-- C9: a rating value outside the ten-step set is rejected with a
validation error before any write: the ratings table is unchanged by the
rejected request (whatever the other inputs), and when the request is
otherwise well-formed (rater header present, title resolving) the response
is the validation error. -/
theorem claim_rating_validation (movies : List Movie) (ratings : List Rating)
    (title raterIDHeader : String) (v : ℚ) (now : Nat)
    (hv : allowedRatings.contains v = false) :
    (handleSubmitRating movies ratings title raterIDHeader (some v) now).2
        = ratings ∧
    (trimSpace raterIDHeader ≠ "" →
      (∃ movie, getByTitle movies title = .ok movie) →
      (handleSubmitRating movies ratings title raterIDHeader (some v) now).1
        = .error .validation) := by
  unfold handleSubmitRating
  constructor
  · dsimp only
    repeat' split
    all_goals rfl
  · intro h1 hex
    obtain ⟨movie, hgt⟩ := hex
    dsimp only
    rw [if_neg h1, hgt]
    dsimp only
    rw [if_pos hv]

theorem claim_rating_validation_witness :
    (handleSubmitRating
      [{ id := "a", title := "T", releaseDate := (2020, 1, 1),
         releaseYear := 2020, genre := "G", distributor := none,
         budget := none, mpaRating := none, boxOffice := none,
         createdAt := 0, updatedAt := 0 }]
      [] "T" "u" (some (33 / 10)) 7).2 = [] ∧
    (handleSubmitRating
      [{ id := "a", title := "T", releaseDate := (2020, 1, 1),
         releaseYear := 2020, genre := "G", distributor := none,
         budget := none, mpaRating := none, boxOffice := none,
         createdAt := 0, updatedAt := 0 }]
      [] "T" "u" (some (33 / 10)) 7).1 = .error .validation := by
  have hv : allowedRatings.contains ((33 : ℚ) / 10) = false := by
    rw [Bool.eq_false_iff]
    intro hc
    have hm := List.elem_iff.mp hc
    simp only [allowedRatings, List.mem_cons, List.not_mem_nil,
      or_false] at hm
    rcases hm with h | h | h | h | h | h | h | h | h | h <;> norm_num at h
  have h := claim_rating_validation
    [{ id := "a", title := "T", releaseDate := (2020, 1, 1),
       releaseYear := 2020, genre := "G", distributor := none,
       budget := none, mpaRating := none, boxOffice := none,
       createdAt := 0, updatedAt := 0 }]
    [] "T" "u" (33 / 10) 7 hv
  exact ⟨h.1, h.2 (by decide)
    ⟨{ id := "a", title := "T", releaseDate := (2020, 1, 1),
       releaseYear := 2020, genre := "G", distributor := none,
       budget := none, mpaRating := none, boxOffice := none,
       createdAt := 0, updatedAt := 0 }, rfl⟩⟩

/-- C10: a blank (empty or whitespace-only) optional string field is
normalized to unset before storage and before the enrichment merge, so the
whole create flow is indistinguishable from the field being omitted — in
particular provider enrichment may fill it. -/
theorem claim_blank_optional_normalized (s : String)
    (hs : trimSpace s = "") :
    normalizeStringPtr (some s) = none ∧
    (∀ (store : List Movie) (authOk : Bool) (req : MovieCreateRequest)
        (newId : String) (now : Nat) (fetch : FetchOutcome),
      handleCreateMovie store authOk { req with distributor := some s }
          newId now fetch
        = handleCreateMovie store authOk { req with distributor := none }
            newId now fetch) ∧
    (∀ (store : List Movie) (authOk : Bool) (req : MovieCreateRequest)
        (newId : String) (now : Nat) (fetch : FetchOutcome),
      handleCreateMovie store authOk { req with mpaRating := some s }
          newId now fetch
        = handleCreateMovie store authOk { req with mpaRating := none }
            newId now fetch) := by
  have hnorm : normalizeStringPtr (some s) = none := by
    simp [normalizeStringPtr, hs]
  refine ⟨hnorm, ?_, ?_⟩ <;>
    intro store authOk req newId now fetch <;>
    simp [handleCreateMovie, enrichMovieWithBoxOffice, normalizeStringPtr,
      hs]

theorem claim_blank_optional_normalized_witness :
    normalizeStringPtr (some "  ") = none :=
  (claim_blank_optional_normalized "  " (by decide)).1

/-- C8: enrichment failure never fails the creation: on provider
`not found` or on any other fetch failure, the creation still responds
`201` with the movie exactly as created (no box-office sub-document), and
the store holds exactly that movie. -/
theorem claim_enrichment_failure (store : List Movie) (authOk : Bool)
    (req : MovieCreateRequest) (newId : String) (now : Nat)
    (fetch : FetchOutcome)
    (hfetch : fetch = .notFound ∨ fetch = .failure)
    (hauth : authOk = true)
    (rd : Nat × Nat × Nat) (hrd : req.releaseDate = some rd)
    (htitle : trimSpace req.title ≠ "") (hgenre : trimSpace req.genre ≠ "")
    (hbudget : ∀ b, req.budget = some b → 0 ≤ b) :
    ∃ movie,
      handleCreateMovie store authOk req newId now fetch
        = (.ok (201, movie), store ++ [movie]) ∧
      movie.boxOffice = none := by
  refine ⟨createMovie
    { title := trimSpace req.title, releaseDate := rd,
      genre := trimSpace req.genre,
      distributor := normalizeStringPtr req.distributor,
      budget := req.budget,
      mpaRating := normalizeStringPtr req.mpaRating,
      boxOffice := none } newId now, ?_, rfl⟩
  have hbudget2 : (match req.budget with
      | some b => decide (b < 0)
      | none => false) = false := by
    cases hb : req.budget with
    | none => rfl
    | some b =>
      simp only [decide_eq_false_iff_not, not_lt]
      exact hbudget b hb
  unfold handleCreateMovie
  rw [if_neg (by simp [hauth]), hrd]
  dsimp only
  rw [if_neg (by
    rintro (h | h)
    · exact htitle h
    · exact hgenre h)]
  rw [if_neg (by rw [hbudget2]; simp)]
  rcases hfetch with rfl | rfl <;> rfl

theorem claim_enrichment_failure_witness :
    ∃ movie,
      handleCreateMovie [] true
        { title := "T", genre := "G", releaseDate := some (2020, 1, 1),
          distributor := none, budget := none, mpaRating := none }
        "a" 3 .notFound
        = (.ok (201, movie), [] ++ [movie]) ∧
      movie.boxOffice = none :=
  claim_enrichment_failure [] true
    { title := "T", genre := "G", releaseDate := some (2020, 1, 1),
      distributor := none, budget := none, mpaRating := none }
    "a" 3 .notFound (Or.inl rfl) rfl (2020, 1, 1) rfl (by decide)
    (by decide) (by intro b hb; cases hb)

theorem find?_id_append (store : List Movie) (movie : Movie)
    (hfresh : ∀ m ∈ store, m.id ≠ movie.id) :
    (store ++ [movie]).find? (fun m => m.id == movie.id) = some movie := by
  induction store with
  | nil => simp [List.find?]
  | cons a t ih =>
    have ha : a.id ≠ movie.id := hfresh a (by simp)
    rw [List.cons_append, List.find?_cons_of_neg _ (by simpa using ha)]
    exact ih fun m hm => hfresh m (by simp [hm])

theorem coalesce_firstNonNil {α : Type} (a b : Option α) :
    coalesce (firstNonNil a b) a = firstNonNil a b := by
  cases a <;> cases b <;> rfl

/-- C7: on a successful enrichment fetch after creation, provider
distributor/budget/MPA values are merged only into fields the caller left
unset — a caller-supplied value always wins — while the provider box-office
sub-document is attached unconditionally as a full replacement. -/
theorem claim_enrichment_merge (store : List Movie) (authOk : Bool)
    (req : MovieCreateRequest) (newId : String) (now : Nat)
    (result : BoxOfficeResult)
    (hauth : authOk = true)
    (rd : Nat × Nat × Nat) (hrd : req.releaseDate = some rd)
    (htitle : trimSpace req.title ≠ "") (hgenre : trimSpace req.genre ≠ "")
    (hbudget : ∀ b, req.budget = some b → 0 ≤ b)
    (hfresh : ∀ m ∈ store, m.id ≠ newId) :
    ∃ enriched store2,
      handleCreateMovie store authOk req newId now (.ok result)
        = (.ok (201, enriched), store2) ∧
      enriched.distributor
        = firstNonNil (normalizeStringPtr req.distributor)
            result.distributor ∧
      enriched.budget = firstNonNil req.budget result.budget ∧
      enriched.mpaRating
        = firstNonNil (normalizeStringPtr req.mpaRating) result.mpaRating ∧
      enriched.boxOffice = result.boxOffice ∧
      (∀ d, normalizeStringPtr req.distributor = some d →
        enriched.distributor = some d) ∧
      (∀ b, req.budget = some b → enriched.budget = some b) ∧
      (∀ r, normalizeStringPtr req.mpaRating = some r →
        enriched.mpaRating = some r) := by
  have hbudget2 : (match req.budget with
      | some b => decide (b < 0)
      | none => false) = false := by
    cases hb : req.budget with
    | none => rfl
    | some b =>
      simp only [decide_eq_false_iff_not, not_lt]
      exact hbudget b hb
  have hfind := find?_id_append store
    (createMovie
      { title := trimSpace req.title, releaseDate := rd,
        genre := trimSpace req.genre,
        distributor := normalizeStringPtr req.distributor,
        budget := req.budget,
        mpaRating := normalizeStringPtr req.mpaRating,
        boxOffice := none } newId now)
    (fun m hm => hfresh m hm)
  unfold handleCreateMovie
  rw [if_neg (by simp [hauth]), hrd]
  dsimp only
  rw [if_neg (by
    rintro (h | h)
    · exact htitle h
    · exact hgenre h)]
  rw [if_neg (by rw [hbudget2]; simp)]
  unfold enrichMovieWithBoxOffice
  dsimp only
  unfold updateMetadata
  rw [hfind]
  dsimp only
  refine ⟨_, _, rfl, ?_, ?_, ?_, rfl, ?_, ?_, ?_⟩
  · exact coalesce_firstNonNil _ _
  · exact coalesce_firstNonNil _ _
  · exact coalesce_firstNonNil _ _
  · intro d hd
    show coalesce (firstNonNil (normalizeStringPtr req.distributor)
        result.distributor) (normalizeStringPtr req.distributor) = some d
    rw [coalesce_firstNonNil, hd]
    rfl
  · intro b hb
    show coalesce (firstNonNil req.budget result.budget) req.budget
        = some b
    rw [coalesce_firstNonNil, hb]
    rfl
  · intro r hr
    show coalesce (firstNonNil (normalizeStringPtr req.mpaRating)
        result.mpaRating) (normalizeStringPtr req.mpaRating) = some r
    rw [coalesce_firstNonNil, hr]
    rfl

theorem claim_enrichment_merge_witness :
    ∃ enriched store2,
      handleCreateMovie [] true
        ⟨"T", "G", some (2020, 1, 1), some "CallerCo", none, none⟩
        "a" 3
        (.ok ⟨some "ProviderCo", some 9, some "PG",
          some ⟨⟨5, none⟩, "USD", "prov", 4⟩⟩)
        = (.ok (201, enriched), store2) ∧
      enriched.distributor
        = firstNonNil (normalizeStringPtr (some "CallerCo"))
            (some "ProviderCo") ∧
      enriched.budget = firstNonNil none (some 9) ∧
      enriched.mpaRating
        = firstNonNil (normalizeStringPtr none) (some "PG") ∧
      enriched.boxOffice = some ⟨⟨5, none⟩, "USD", "prov", 4⟩ ∧
      (∀ d, normalizeStringPtr (some "CallerCo") = some d →
        enriched.distributor = some d) ∧
      (∀ b, (none : Option Int) = some b → enriched.budget = some b) ∧
      (∀ r, normalizeStringPtr (none : Option String) = some r →
        enriched.mpaRating = some r) :=
  claim_enrichment_merge [] true
    ⟨"T", "G", some (2020, 1, 1), some "CallerCo", none, none⟩
    "a" 3
    ⟨some "ProviderCo", some 9, some "PG",
      some ⟨⟨5, none⟩, "USD", "prov", 4⟩⟩
    rfl (2020, 1, 1) rfl (by decide) (by decide)
    (by intro b hb; cases hb) (by intro m hm; cases hm)

theorem ratingKeyMatches_self (mid rid : String) (v : ℚ) (c u : Nat) :
    ratingKeyMatches mid rid { movieId := mid, raterId := rid,
                               value := v, createdAt := c,
                               updatedAt := u } = true := by
  simp [ratingKeyMatches]

theorem upsert_insert (movies : List Movie) (ratings : List Rating)
    (mid rid : String) (v : ℚ) (now : Nat)
    (hm : movies.any (fun m => m.id == mid) = true)
    (hf : ratings.find? (ratingKeyMatches mid rid) = none) :
    upsert movies ratings { movieID := mid, raterID := rid, value := v } now
      = .ok (ratings ++ [{ movieId := mid, raterId := rid,
                            value := v, createdAt := now,
                            updatedAt := now }],
        { movieId := mid, raterId := rid,
          value := v, createdAt := now, updatedAt := now }, true) := by
  unfold upsert
  rw [if_pos hm]
  dsimp only
  rw [hf]

theorem upsert_update (movies : List Movie) (ratings : List Rating)
    (mid rid : String) (v : ℚ) (now : Nat) (old : Rating)
    (hm : movies.any (fun m => m.id == mid) = true)
    (hf : ratings.find? (ratingKeyMatches mid rid) = some old) :
    upsert movies ratings { movieID := mid, raterID := rid, value := v } now
      = .ok (ratings.map (fun r => if ratingKeyMatches mid rid r then
            { old with value := v, updatedAt := now } else r),
          { old with value := v, updatedAt := now }, false) := by
  unfold upsert
  rw [if_pos hm]
  dsimp only
  rw [hf]

theorem ratingKeyMatches_update (mid rid : String) (old : Rating) (v : ℚ)
    (now : Nat) (h : ratingKeyMatches mid rid old = true) :
    ratingKeyMatches mid rid { old with value := v, updatedAt := now }
      = true := by
  simpa [ratingKeyMatches] using h

theorem filter_map_update (l : List Rating) (p : Rating → Bool) (u : Rating)
    (hu : p u = true) :
    (l.map (fun r => if p r then u else r)).filter p
      = (l.filter p).map (fun _ => u) := by
  induction l with
  | nil => rfl
  | cons a t ih =>
    cases ha : p a with
    | true => simp [List.filter_cons, ha, hu, ih]
    | false => simp [List.filter_cons, ha, ih]

theorem find?_map_update (l : List Rating) (p : Rating → Bool) (u : Rating)
    (hu : p u = true) (old : Rating) (hf : l.find? p = some old) :
    (l.map (fun r => if p r then u else r)).find? p = some u := by
  induction l with
  | nil => simp at hf
  | cons a t ih =>
    cases ha : p a with
    | true =>
      simp only [List.map_cons, ha, if_true]
      rw [List.find?_cons_of_pos _ hu]
    | false =>
      rw [List.find?_cons_of_neg _ (by simp [ha])] at hf
      simp only [List.map_cons, ha, Bool.false_eq_true, if_false]
      rw [List.find?_cons_of_neg _ (by simp [ha])]
      exact ih hf

/-- One accepted submission leaves exactly one row for the pair and
`Get` returns the submitted value. -/
theorem upsert_step (movies : List Movie) (ratings : List Rating)
    (mid rid : String) (v : ℚ) (now : Nat)
    (hm : movies.any (fun m => m.id == mid) = true)
    (hinv : (ratings.filter (ratingKeyMatches mid rid)).length ≤ 1) :
    ∃ r2 row inserted,
      upsert movies ratings
          { movieID := mid, raterID := rid, value := v } now
        = .ok (r2, row, inserted) ∧
      (r2.filter (ratingKeyMatches mid rid)).length = 1 ∧
      r2.find? (ratingKeyMatches mid rid) = some row ∧
      row.value = v := by
  cases hf : ratings.find? (ratingKeyMatches mid rid) with
  | none =>
    refine ⟨_, _, _, upsert_insert movies ratings mid rid v now hm hf,
      ?_, ?_, rfl⟩
    · rw [List.filter_append,
        List.filter_eq_nil_iff.mpr (by
          intro a ha
          exact (List.find?_eq_none.mp hf) a ha)]
      simp [ratingKeyMatches_self]
    · rw [List.find?_append, hf]
      simp [List.find?, ratingKeyMatches_self]
  | some old =>
    have hmatch : ratingKeyMatches mid rid old = true :=
      List.find?_some hf
    have hu := ratingKeyMatches_update mid rid old v now hmatch
    refine ⟨_, _, _, upsert_update movies ratings mid rid v now old hm hf,
      ?_, ?_, rfl⟩
    · rw [filter_map_update _ _ _ hu, List.length_map]
      have hpos : 0 < (ratings.filter (ratingKeyMatches mid rid)).length :=
        List.length_pos.mpr (by
          intro hnil
          rw [List.filter_eq_nil_iff] at hnil
          exact hnil old (List.mem_of_find?_eq_some hf) hmatch)
      omega
    · exact find?_map_update _ _ _ hu old hf

/-- The result of a submission sequence: one row whose value is the last
submitted value. -/
theorem submitSeq_last (movies : List Movie) (mid rid : String)
    (hm : movies.any (fun m => m.id == mid) = true) :
    ∀ (subs : List (ℚ × Nat)) (ratings : List Rating),
    (ratings.filter (ratingKeyMatches mid rid)).length ≤ 1 →
    subs ≠ [] →
    ((submitSeq movies mid rid ratings subs).filter
        (ratingKeyMatches mid rid)).length = 1 ∧
    (∀ lastv lastt, subs.getLast? = some (lastv, lastt) →
      ∃ row, getRating (submitSeq movies mid rid ratings subs) mid rid
          = .ok row ∧ row.value = lastv) := by
  intro subs
  induction subs with
  | nil => intro ratings _ hne; exact absurd rfl hne
  | cons vt rest ih =>
    intro ratings hinv hne
    obtain ⟨v, t⟩ := vt
    obtain ⟨r2, row, inserted, hup, hcount, hfind, hval⟩ :=
      upsert_step movies ratings mid rid v t hm hinv
    have hstep : submitSeq movies mid rid ratings ((v, t) :: rest)
        = submitSeq movies mid rid r2 rest := by
      conv_lhs => unfold submitSeq
      rw [hup]
    cases rest with
    | nil =>
      rw [hstep]
      refine ⟨hcount, ?_⟩
      intro lastv lastt hlast
      simp only [List.getLast?_singleton, Option.some.injEq,
        Prod.mk.injEq] at hlast
      refine ⟨row, ?_, by rw [hval, hlast.1]⟩
      unfold submitSeq getRating
      rw [hfind]
    | cons vt2 rest2 =>
      rw [hstep]
      have hres := ih r2 (by omega) (by simp)
      refine ⟨hres.1, ?_⟩
      intro lastv lastt hlast
      rw [List.getLast?_cons_cons] at hlast
      exact hres.2 lastv lastt hlast

/-- C1: for an existing movie, `Upsert` inserts a new row reporting
`inserted = true` when no row for the `(movie, rater)` pair exists, and
otherwise overwrites the row's value and refreshes `updated_at` reporting
`inserted = false`; after any non-empty sequence of submissions by one
rater for one movie, exactly one row exists for the pair and its value is
the most recently submitted one. -/
theorem claim_rating_upsert (movies : List Movie) (ratings : List Rating)
    (mid rid : String) (v : ℚ) (now : Nat)
    (hm : movies.any (fun m => m.id == mid) = true) :
    (ratings.find? (ratingKeyMatches mid rid) = none →
      upsert movies ratings { movieID := mid, raterID := rid, value := v }
          now
        = .ok (ratings ++ [{ movieId := mid, raterId := rid,
                             value := v, createdAt := now,
                             updatedAt := now }],
          { movieId := mid, raterId := rid,
            value := v, createdAt := now, updatedAt := now }, true)) ∧
    (∀ old, ratings.find? (ratingKeyMatches mid rid) = some old →
      upsert movies ratings { movieID := mid, raterID := rid, value := v }
          now
        = .ok (ratings.map (fun r => if ratingKeyMatches mid rid r then
              { old with value := v, updatedAt := now } else r),
            { old with value := v, updatedAt := now }, false)) ∧
    (∀ subs : List (ℚ × Nat),
      (ratings.filter (ratingKeyMatches mid rid)).length ≤ 1 →
      subs ≠ [] →
      ((submitSeq movies mid rid ratings subs).filter
          (ratingKeyMatches mid rid)).length = 1 ∧
      (∀ lastv lastt, subs.getLast? = some (lastv, lastt) →
        ∃ row, getRating (submitSeq movies mid rid ratings subs) mid rid
            = .ok row ∧ row.value = lastv)) :=
  ⟨fun hf => upsert_insert movies ratings mid rid v now hm hf,
   fun old hf => upsert_update movies ratings mid rid v now old hm hf,
   fun subs hinv hne => submitSeq_last movies mid rid hm subs ratings hinv hne⟩

theorem claim_rating_upsert_witness :
    ∃ row,
      getRating
        (submitSeq
          [{ id := "a", title := "T", releaseDate := (2020, 1, 1),
             releaseYear := 2020, genre := "G", distributor := none,
             budget := none, mpaRating := none, boxOffice := none,
             createdAt := 0, updatedAt := 0 }]
          "a" "u" [] [(1 / 2, 5), (2, 6)])
        "a" "u" = .ok row ∧ row.value = 2 :=
  ((claim_rating_upsert
      [{ id := "a", title := "T", releaseDate := (2020, 1, 1),
         releaseYear := 2020, genre := "G", distributor := none,
         budget := none, mpaRating := none, boxOffice := none,
         createdAt := 0, updatedAt := 0 }]
      [] "a" "u" 1 0 (by decide)).2.2
    [(1 / 2, 5), (2, 6)] (by decide) (by decide)).2 2 6 rfl

theorem ratFloor_eq (q : ℚ) : q.floor = ⌊q⌋ :=
  (Rat.floor_def' q).trans Rat.floor_def.symm

theorem mathRound_nonneg_eq (x : ℚ) (hx : 0 ≤ x) :
    mathRound x = (⌊x + 1 / 2⌋ : ℚ) := by
  rw [mathRound, if_pos hx, ratFloor_eq]

theorem allowedRatings_pos : ∀ v ∈ allowedRatings, 0 < v := by
  intro v hv
  simp only [allowedRatings, List.mem_cons, List.not_mem_nil,
    or_false] at hv
  rcases hv with rfl | rfl | rfl | rfl | rfl | rfl | rfl | rfl | rfl | rfl
    <;> norm_num

/-- Re-rounding an already-rounded non-negative value is the identity (the
handler applies `roundToOneDecimal` to the SQL-rounded average). -/
theorem roundToOneDecimal_roundHalfUp1 (x : ℚ) (hx : 0 ≤ x) :
    roundToOneDecimal (roundHalfUp1 x) = roundHalfUp1 x := by
  rw [roundHalfUp1_eq_floor]
  have hk0 : (0 : ℤ) ≤ ⌊x * 10 + 1 / 2⌋ := by
    apply Int.le_floor.mpr
    push_cast
    linarith
  rw [roundToOneDecimal]
  have h10 : ((⌊x * 10 + 1 / 2⌋ : ℚ) / 10) * 10 = (⌊x * 10 + 1 / 2⌋ : ℚ) :=
    div_mul_cancel₀ _ (by norm_num)
  have hhalf : ⌊(1 : ℚ) / 2⌋ = 0 := by
    rw [Int.floor_eq_zero_iff]
    constructor <;> norm_num
  rw [h10, mathRound_nonneg_eq _ (by exact_mod_cast hk0), add_comm,
    Int.floor_add_int, hhalf]
  norm_num

/-- C3: `Aggregate` returns the row count and the arithmetic mean rounded
half-up at the tenths place (0 when there are no rows), and the handler's
extra `roundToOneDecimal` pass does not change the value. -/
theorem claim_rating_aggregate (ratings : List Rating) (movieID : String)
    (hvals : ∀ r ∈ ratings, r.value ∈ allowedRatings) :
    ((aggregate ratings movieID).count
        = ((ratings.filter (fun r => r.movieId == movieID)).map
            Rating.value).length) ∧
    (((ratings.filter (fun r => r.movieId == movieID)).map Rating.value)
        = [] → (aggregate ratings movieID).average = 0) ∧
    (((ratings.filter (fun r => r.movieId == movieID)).map Rating.value)
        ≠ [] →
      (aggregate ratings movieID).average
        = (⌊(((ratings.filter (fun r => r.movieId == movieID)).map
              Rating.value).sum
            / ((ratings.filter (fun r => r.movieId == movieID)).map
                Rating.value).length) * 10 + 1 / 2⌋ : ℚ) / 10) ∧
    roundToOneDecimal (aggregate ratings movieID).average
      = (aggregate ratings movieID).average := by
  have hsum : 0 ≤ ((ratings.filter (fun r => r.movieId == movieID)).map
      Rating.value).sum := by
    apply List.sum_nonneg
    intro x hx
    obtain ⟨r, hr, rfl⟩ := List.mem_map.mp hx
    exact le_of_lt (allowedRatings_pos r.value
      (hvals r (List.mem_of_mem_filter hr)))
  have hmean : 0 ≤ ((ratings.filter (fun r => r.movieId == movieID)).map
      Rating.value).sum
      / (((ratings.filter (fun r => r.movieId == movieID)).map
          Rating.value).length : ℚ) :=
    div_nonneg hsum (by positivity)
  refine ⟨?_, ?_, ?_, ?_⟩
  · unfold aggregate
    dsimp only
    split
    · next h => simp [h]
    · rfl
  · intro h
    unfold aggregate
    dsimp only
    rw [if_pos (by rw [h]; rfl)]
  · intro h
    unfold aggregate
    dsimp only
    rw [if_neg (by simpa using h), roundHalfUp1_eq_floor]
  · unfold aggregate
    dsimp only
    split
    · have hhalf : ⌊(1 : ℚ) / 2⌋ = 0 := by
        rw [Int.floor_eq_zero_iff]
        constructor <;> norm_num
      simp [roundToOneDecimal, mathRound, ratFloor_eq, hhalf]
      norm_num
    · exact roundToOneDecimal_roundHalfUp1 _ hmean

theorem claim_rating_aggregate_witness :
    (aggregate [⟨"m", "u1", 9 / 2, 0, 0⟩, ⟨"m", "u2", 4, 1, 1⟩] "m").count
        = 2 ∧
    (aggregate [⟨"m", "u1", 9 / 2, 0, 0⟩, ⟨"m", "u2", 4, 1, 1⟩] "m").average
        = 43 / 10 := by
  have hvals : ∀ r ∈ ([⟨"m", "u1", 9 / 2, 0, 0⟩,
      ⟨"m", "u2", 4, 1, 1⟩] : List Rating), r.value ∈ allowedRatings := by
    intro r hr
    simp only [List.mem_cons, List.not_mem_nil, or_false] at hr
    rcases hr with rfl | rfl <;>
      simp only [allowedRatings, List.mem_cons] <;> norm_num
  have h := claim_rating_aggregate
    [⟨"m", "u1", 9 / 2, 0, 0⟩, ⟨"m", "u2", 4, 1, 1⟩] "m" hvals
  refine ⟨h.1, ?_⟩
  rw [h.2.2.1 (by decide)]
  have hvs : (([⟨"m", "u1", 9 / 2, 0, 0⟩,
      ⟨"m", "u2", 4, 1, 1⟩] : List Rating).filter
        (fun r => r.movieId == "m")).map Rating.value
      = [9 / 2, (4 : ℚ)] := rfl
  rw [hvs]
  norm_num [List.sum_cons, List.sum_nil]

theorem matchesFilters_eq (f : MovieListFilters) (m : Movie) :
    matchesFilters f m =
      (clauseQuery f.query m && clauseYear f.year m &&
       clauseGenre f.genre m && clauseDistrib f.distributor m &&
       clauseBudget f.budgetLTE m && clauseMpa f.mpaRating m) := rfl

/-- `ILIKE` with a wildcard-free pattern is case-insensitive equality. -/
theorem ilike_plain (t p : String) (hp : plainPat (lowerStr p) = true) :
    (ilike t p = true ↔ lowerStr p = lowerStr t) :=
  likeMatch_plain (lowerStr p) hp (lowerStr t)

theorem lowerStr_wrap (s : String) :
    lowerStr ("%" ++ s ++ "%") = '%' :: (lowerStr s ++ ['%']) := by
  obtain ⟨l⟩ := s
  show ('%' :: (l ++ ['%'])).map Char.toLower
      = '%' :: (l.map Char.toLower ++ ['%'])
  rw [List.map_cons, List.map_append]
  rfl

/-- `ILIKE '%q%'` with a wildcard-free `q` is case-insensitive substring
containment. -/
theorem ilike_sub (t q : String)
    (hp : plainPat (lowerStr (trimSpace q)) = true) :
    (ilike t ("%" ++ trimSpace q ++ "%") = true ↔
      isSubCh (lowerStr (trimSpace q)) (lowerStr t) = true) := by
  show likeMatch (lowerStr ("%" ++ trimSpace q ++ "%")) (lowerStr t)
      = true ↔ _
  rw [lowerStr_wrap]
  exact likeMatch_pct_wrap (lowerStr (trimSpace q)) hp (lowerStr t)

theorem clauseQuery_iff (oq : Option String) (m : Movie)
    (hp : oq.all (fun q => plainPat (lowerStr (trimSpace q))) = true) :
    (clauseQuery oq m = true ↔
      ∀ q, oq = some q → trimSpace q ≠ "" →
        (isSubCh (lowerStr (trimSpace q)) (lowerStr m.title) = true ∨
         ∃ d, m.distributor = some d ∧
           isSubCh (lowerStr (trimSpace q)) (lowerStr d) = true)) := by
  cases oq with
  | none => simp [clauseQuery]
  | some q =>
    have hq : plainPat (lowerStr (trimSpace q)) = true := hp
    by_cases h0 : trimSpace q = ""
    · simp [clauseQuery, h0]
    · simp only [clauseQuery, if_neg h0]
      rw [Bool.or_eq_true]
      constructor
      · rintro (h | h)
        · intro q2 hq2 _hne
          injection hq2 with he
          subst he
          exact Or.inl ((ilike_sub m.title q hq).mp h)
        · intro q2 hq2 _hne
          injection hq2 with he
          subst he
          cases hmd : m.distributor with
          | none => rw [hmd] at h; simp at h
          | some d =>
            rw [hmd] at h
            exact Or.inr ⟨d, rfl, (ilike_sub d q hq).mp h⟩
      · intro hAll
        rcases hAll q rfl h0 with h | ⟨d, hd, h⟩
        · exact Or.inl ((ilike_sub m.title q hq).mpr h)
        · right
          rw [hd]
          exact (ilike_sub d q hq).mpr h

theorem clauseYear_iff (oy : Option Nat) (m : Movie) :
    (clauseYear oy m = true ↔ ∀ y, oy = some y → m.releaseYear = y) := by
  cases oy with
  | none => simp [clauseYear]
  | some y => simp [clauseYear]

theorem clauseGenre_iff (og : Option String) (m : Movie)
    (hp : og.all (fun g => plainPat (lowerStr (trimSpace g))) = true) :
    (clauseGenre og m = true ↔
      ∀ g, og = some g → trimSpace g ≠ "" →
        lowerStr (trimSpace g) = lowerStr m.genre) := by
  cases og with
  | none => simp [clauseGenre]
  | some g =>
    have hg : plainPat (lowerStr (trimSpace g)) = true := hp
    by_cases h0 : trimSpace g = ""
    · simp [clauseGenre, h0]
    · simp only [clauseGenre, if_neg h0]
      rw [ilike_plain m.genre (trimSpace g) hg]
      constructor
      · intro h g2 hg2 _hne
        injection hg2 with he
        subst he
        exact h
      · intro h
        exact h g rfl h0

theorem clauseDistrib_iff (od : Option String) (m : Movie)
    (hp : od.all (fun dv => plainPat (lowerStr (trimSpace dv))) = true) :
    (clauseDistrib od m = true ↔
      ∀ dv, od = some dv → trimSpace dv ≠ "" →
        ∃ d, m.distributor = some d ∧
          lowerStr (trimSpace dv) = lowerStr d) := by
  cases od with
  | none => simp [clauseDistrib]
  | some dv =>
    have hd : plainPat (lowerStr (trimSpace dv)) = true := hp
    by_cases h0 : trimSpace dv = ""
    · simp [clauseDistrib, h0]
    · simp only [clauseDistrib, if_neg h0]
      constructor
      · intro h dv2 hdv2 _hne
        injection hdv2 with he
        subst he
        cases hmd : m.distributor with
        | none => rw [hmd] at h; simp at h
        | some d =>
          rw [hmd] at h
          exact ⟨d, rfl, (ilike_plain d (trimSpace dv) hd).mp h⟩
      · intro h
        rcases h dv rfl h0 with ⟨d, hdm, he⟩
        rw [hdm]
        exact (ilike_plain d (trimSpace dv) hd).mpr he

theorem clauseBudget_iff (ob : Option Int) (m : Movie) :
    (clauseBudget ob m = true ↔
      ∀ b, ob = some b → ∃ mb, m.budget = some mb ∧ mb ≤ b) := by
  cases ob with
  | none => simp [clauseBudget]
  | some b =>
    simp only [clauseBudget]
    constructor
    · intro h b2 hb2
      injection hb2 with he
      subst he
      cases hmb : m.budget with
      | none => rw [hmb] at h; simp at h
      | some mb =>
        rw [hmb] at h
        exact ⟨mb, rfl, of_decide_eq_true h⟩
    · intro h
      rcases h b rfl with ⟨mb, hmb, hle⟩
      rw [hmb]
      exact decide_eq_true hle

theorem clauseMpa_iff (orat : Option String) (m : Movie)
    (hp : orat.all (fun r => plainPat (lowerStr (trimSpace r))) = true) :
    (clauseMpa orat m = true ↔
      ∀ r, orat = some r → trimSpace r ≠ "" →
        ∃ mr, m.mpaRating = some mr ∧
          lowerStr (trimSpace r) = lowerStr mr) := by
  cases orat with
  | none => simp [clauseMpa]
  | some r =>
    have hr : plainPat (lowerStr (trimSpace r)) = true := hp
    by_cases h0 : trimSpace r = ""
    · simp [clauseMpa, h0]
    · simp only [clauseMpa, if_neg h0]
      constructor
      · intro h r2 hr2 _hne
        injection hr2 with he
        subst he
        cases hmr : m.mpaRating with
        | none => rw [hmr] at h; simp at h
        | some mr =>
          rw [hmr] at h
          exact ⟨mr, rfl, (ilike_plain mr (trimSpace r) hr).mp h⟩
      · intro h
        rcases h r rfl h0 with ⟨mr, hmm, he⟩
        rw [hmm]
        exact (ilike_plain mr (trimSpace r) hr).mpr he

/-- C5 counterexample: the genre filter `"Act"` occurs case-insensitively
as a substring of the genre `"Action"`, yet `List` excludes the movie —
the genre filter is passed to `ILIKE` with no `%` wildcards, so it is an
exact (whole-field) case-insensitive comparison, not a substring match. -/
theorem claim_substring_counterexample :
    isSubCh (lowerStr "Act") (lowerStr "Action") = true ∧
    matchesFilters { genre := some "Act" } mC5Action = false ∧
    (listMovies [mC5Action] { genre := some "Act" }).items = [] := by
  refine ⟨by decide, by decide, by decide⟩

/-- C5 (amended): for wildcard-free filter strings, the free-text query
filter matches case-insensitively as a substring against title or
distributor, while the genre, distributor and MPA-rating filters match
case-insensitively as whole-field (exact) comparisons against the trimmed
filter string — `List` adds `%` wildcards only around the free-text query,
not around the other three; blank filters are ignored, a NULL column never
matches, the year filter is exact and the budget filter is an inclusive
upper bound. -/
theorem claim_substring_filters (f : MovieListFilters) (m : Movie)
    (hq : f.query.all (fun q => plainPat (lowerStr (trimSpace q))) = true)
    (hg : f.genre.all (fun g => plainPat (lowerStr (trimSpace g))) = true)
    (hd : f.distributor.all
      (fun dv => plainPat (lowerStr (trimSpace dv))) = true)
    (hr : f.mpaRating.all
      (fun r => plainPat (lowerStr (trimSpace r))) = true) :
    matchesFilters f m = true ↔
      ((∀ q, f.query = some q → trimSpace q ≠ "" →
          (isSubCh (lowerStr (trimSpace q)) (lowerStr m.title) = true ∨
           ∃ d, m.distributor = some d ∧
             isSubCh (lowerStr (trimSpace q)) (lowerStr d) = true)) ∧
       (∀ y, f.year = some y → m.releaseYear = y) ∧
       (∀ g, f.genre = some g → trimSpace g ≠ "" →
          lowerStr (trimSpace g) = lowerStr m.genre) ∧
       (∀ dv, f.distributor = some dv → trimSpace dv ≠ "" →
          ∃ d, m.distributor = some d ∧
            lowerStr (trimSpace dv) = lowerStr d) ∧
       (∀ b, f.budgetLTE = some b → ∃ mb, m.budget = some mb ∧ mb ≤ b) ∧
       (∀ r, f.mpaRating = some r → trimSpace r ≠ "" →
          ∃ mr, m.mpaRating = some mr ∧
            lowerStr (trimSpace r) = lowerStr mr)) := by
  rw [matchesFilters_eq]
  simp only [Bool.and_eq_true]
  rw [clauseQuery_iff f.query m hq, clauseYear_iff f.year m,
    clauseGenre_iff f.genre m hg, clauseDistrib_iff f.distributor m hd,
    clauseBudget_iff f.budgetLTE m, clauseMpa_iff f.mpaRating m hr]
  tauto

theorem claim_substring_filters_witness :
    matchesFilters fC5All mC5All = true :=
  (claim_substring_filters fC5All mC5All (by decide) (by decide)
      (by decide) (by decide)).mpr
    (by
      refine ⟨?_, ?_, ?_, ?_, ?_, ?_⟩
      · intro q hq _hne
        injection hq with he
        subst he
        exact Or.inl (by decide)
      · intro y hy
        injection hy
      · intro g hg _hne
        injection hg with he
        subst he
        decide
      · intro dv hdv _hne
        injection hdv with he
        subst he
        exact ⟨"Warner Bros", rfl, by decide⟩
      · intro b hb
        injection hb with he
        subst he
        exact ⟨63, rfl, by decide⟩
      · intro r hr _hne
        injection hr with he
        subst he
        exact ⟨"R", rfl, by decide⟩)

/-- C2: `List` returns the matching rows sorted strictly by
`(created_at DESC, id DESC)`, truncated at the effective limit; with a
cursor the page is exactly the matching rows whose key is lexicographically
strictly below the cursor's key (all of them whenever they fit in one
page); and a client that follows next-cursors with `limit = 1` enumerates
every matching movie exactly once — no duplicates, no omissions — in
strictly descending key order.  (Keys are assumed distinct, as `id` is a
generated primary key; ids are byte-ranged text, as UUIDs are.) -/
theorem claim_list_pagination (store : List Movie) (f : MovieListFilters)
    (hn : (store.map movieKey).Nodup)
    (hascii : ∀ m ∈ store, ∀ ch ∈ m.id.data, ch.toNat < 256) :
    ((listMovies store f).items.Sorted movieGt ∧
     (listMovies store f).items
       = ((List.insertionSort movieGe
            (store.filter (matchesFilters f))).filter
           (belowCursor f.cursor)).take (effLimit f.limit) ∧
     (((List.insertionSort movieGe
          (store.filter (matchesFilters f))).filter
          (belowCursor f.cursor)).length ≤ effLimit f.limit →
       (listMovies store f).items
         = (List.insertionSort movieGe
             (store.filter (matchesFilters f))).filter
               (belowCursor f.cursor)) ∧
     (f.limit = 1 →
       ∀ n, (store.filter (matchesFilters f)).length ≤ n →
         paginate store f none (n + 1)
           = List.insertionSort movieGe (store.filter (matchesFilters f)) ∧
         List.Perm (paginate store f none (n + 1))
           (store.filter (matchesFilters f)) ∧
         (paginate store f none (n + 1)).Sorted movieGt)) := by
  have hmn : ((store.filter (matchesFilters f)).map movieKey).Nodup :=
    hn.sublist ((store.filter_sublist).map movieKey)
  have hsorted := insertionSort_sorted_strict
    (store.filter (matchesFilters f)) hmn
  have hitems := listMovies_items store f hn
  refine ⟨?_, hitems, ?_, ?_⟩
  · rw [hitems]
    exact hsorted.sublist
      ((List.take_sublist _ _).trans (List.filter_sublist _))
  · intro hle
    rw [hitems]
    exact List.take_of_length_le hle
  · intro hlim n hlen
    have hfe : (List.insertionSort movieGe
        (store.filter (matchesFilters f))).filter (belowCursor none)
        = List.insertionSort movieGe (store.filter (matchesFilters f)) :=
      List.filter_eq_self.mpr (fun a _ => rfl)
    have hlen2 : ((List.insertionSort movieGe
        (store.filter (matchesFilters f))).filter
          (belowCursor none)).length ≤ n := by
      rw [hfe, (List.perm_insertionSort movieGe
        (store.filter (matchesFilters f))).length_eq]
      exact hlen
    have hp := paginate_spec store f hn hascii hlim n none hlen2
    rw [hfe] at hp
    refine ⟨hp, ?_, ?_⟩
    · rw [hp]
      exact List.perm_insertionSort _ _
    · rw [hp]
      exact hsorted

theorem claim_list_pagination_witness :
    paginate storeC2 { limit := 1 } none 3
      = List.insertionSort movieGe
          (storeC2.filter (matchesFilters { limit := 1 })) ∧
    paginate storeC2 { limit := 1 } none 3 = [mC2b, mC2a] := by
  have h := ((claim_list_pagination storeC2 { limit := 1 } (by decide)
      (by decide)).2.2.2 rfl 2 (by decide)).1
  exact ⟨h, by rw [h]; decide⟩
